import Mathlib

/-!
Verification development for the job-aggregation pipeline of the `h1b`
repository (`backend/job_aggregator.py`).

Shallow embedding conventions:
* Python strings are modelled as `List Char` (`Str`); `str.lower`, `str.strip`,
  `str.split`, `" ".flatten`, `str.replace` and the `in`/`endswith` tests are
  modelled character-by-character over the ASCII fragment the repository's
  data uses.
* Python `set` snapshots are modelled as `List Str` with membership tests;
  iteration order of a Python set is abstracted as the literal order in the
  source where a fixed enumeration exists (the loop results proved here are
  order-independent unless noted).
* Wall-clock time (`datetime.now(timezone.utc).isoformat()`) is an explicit
  `now : Str` parameter.
* `datetime.fromisoformat` composed with `.isoformat()` is an explicit
  parameter `fromIso : Str -> Option Str` (`none` models the `ValueError`
  branch); it is Python standard library, not repository code.
* Regex-based requirement extraction (`extract_requirements`) is an explicit
  parameter `extractReq : Str -> List Str`; no claim depends on its output.
* Float arithmetic on salaries is modelled exactly in `ℚ`; the only float
  comparison in scope, `shorter / longer >= 0.7`, is modelled as
  `7 * longer <= 10 * shorter`, which agrees with the float comparison for
  all string lengths that can occur.
* The MongoDB `jobs` collection is an association list keyed by `job_id`;
  `find_one`/`update_one`/`insert_one` on that key become `lookupA`,
  `setA`, and appending.
-/

abbrev Str := List Char

/-- One character of `str.lower` (ASCII fragment). -/
def lowerChar (c : Char) : Char :=
  if 65 ≤ c.toNat ∧ c.toNat ≤ 90 then Char.ofNat (c.toNat + 32) else c

/-- One character of `str.upper` (ASCII fragment). -/
def upperChar (c : Char) : Char :=
  if 97 ≤ c.toNat ∧ c.toNat ≤ 122 then Char.ofNat (c.toNat - 32) else c

/-- The whitespace class used by Python `str.strip()` / `str.split()`. -/
def isWs (c : Char) : Bool :=
  c = ' ' || c = '\t' || c = '\n' || c = '\r'

/-- Python `str.strip()`: drop leading and trailing whitespace. -/
def pyStrip (l : Str) : Str :=
  ((l.dropWhile isWs).reverse.dropWhile isWs).reverse

/-- Python substring test `needle in hay`. -/
def isSubstrOf (needle hay : Str) : Bool :=
  match hay with
  | [] => needle.isPrefixOf []
  | _ :: t => needle.isPrefixOf hay || isSubstrOf needle t

/-- Accumulator-based worker for Python `str.split()` (split on whitespace
runs, discarding empty pieces). -/
def wordsAux : Str → Str → List Str
  | [], acc => if acc = [] then [] else [acc.reverse]
  | c :: cs, acc =>
    if isWs c then
      if acc = [] then wordsAux cs [] else acc.reverse :: wordsAux cs []
    else wordsAux cs (c :: acc)

/-- Python `str.split()` with no separator argument. -/
def pyWords (l : Str) : List Str := wordsAux l []

/-- Python `" ".flatten(ws)`. -/
def joinSp : List Str → Str
  | [] => []
  | [w] => w
  | w :: ws => w ++ ' ' :: joinSp ws

/-- Python `" ".flatten(s.split())`: collapse internal whitespace. -/
def collapseWs (l : Str) : Str := joinSp (pyWords l)

/-- Python set / list membership as a boolean. -/
def memB (x : Str) (l : List Str) : Bool := l.any (fun y => decide (y = x))

/-- Python `str.title()` (ASCII fragment): uppercase every letter that does
not follow a letter, lowercase the others. -/
def pyTitleAux : Bool → Str → Str
  | _, [] => []
  | prevAlpha, c :: cs =>
    (if c.isAlpha then (if prevAlpha then lowerChar c else upperChar c) else c)
      :: pyTitleAux c.isAlpha cs

/-- Python `str.title()` (ASCII fragment). -/
def pyTitle (l : Str) : Str := pyTitleAux false l

/-- The ordered suffix list of `JobAggregator.normalize_company_name`. -/
def pySuffixes : List Str :=
  [(" incorporated").data, (" inc.").data, (" inc").data,
   (" limited liability company").data, (" llc").data, (" l.l.c.").data, (" l.l.c").data,
   (" corporation").data, (" corp.").data, (" corp").data,
   (" limited").data, (" ltd.").data, (" ltd").data,
   (" company").data, (" co.").data, (" co").data,
   (" llp").data, (" l.l.p.").data,
   (" technologies").data, (" technology").data,
   (" platforms").data, (" platform").data,
   (" services").data, (" service").data]

/-- One iteration of the suffix loop:
`if name.endswith(suffix): name = name[:-len(suffix)].strip()`. -/
def stripOneSuffix (n : Str) (suf : Str) : Str :=
  if suf.isSuffixOf n then pyStrip (n.take (n.length - suf.length)) else n

/-- The whole (non-breaking) suffix loop of `normalize_company_name`. -/
def stripSuffixes (n : Str) : Str := pySuffixes.foldl stripOneSuffix n

/-- `name.replace(",", "").replace(".", "").replace("-", " ")`. -/
def removePunct (n : Str) : Str :=
  ((n.filter (fun c => decide (c ≠ ','))).filter (fun c => decide (c ≠ '.'))).map
    (fun c => if c = '-' then ' ' else c)

/-- `JobAggregator.normalize_company_name` (job_aggregator.py lines 47-75). -/
def normalize_company_name (name : Str) : Str :=
  if name = [] then []
  else collapseWs (removePunct (stripSuffixes (pyStrip (name.map lowerChar))))

/-- The float test `shorter / longer >= 0.7` on the two lengths, done exactly
in the rationals. -/
def ratioOk (a b : Nat) : Bool := decide (7 * max a b ≤ 10 * min a b)

/-- The body of the partial-match loop of `is_h1b_sponsor` for one candidate:
both lengths at least 4, one string contains the other, ratio at least 0.7. -/
def fuzzyMatch (normalized h1b_company : Str) : Bool :=
  decide (4 ≤ normalized.length) && decide (4 ≤ h1b_company.length) &&
    (isSubstrOf normalized h1b_company || isSubstrOf h1b_company normalized) &&
    ratioOk normalized.length h1b_company.length

/-- `JobAggregator.is_h1b_sponsor` (job_aggregator.py lines 77-102). -/
def is_h1b_sponsor (company_name : Str) (h1b_companies : List Str) : Bool :=
  if company_name = [] then false
  else
    let normalized := normalize_company_name company_name
    if memB normalized h1b_companies then true
    else if memB (pyStrip (company_name.map lowerChar)) h1b_companies then true
    else h1b_companies.any (fun h => fuzzyMatch normalized h)

/-- The fixed enumeration of two-letter region codes of `extract_state`,
in source order. -/
def usStates : List Str :=
  [("AL").data, ("AK").data, ("AZ").data, ("AR").data, ("CA").data,
   ("CO").data, ("CT").data, ("DE").data, ("FL").data, ("GA").data,
   ("HI").data, ("ID").data, ("IL").data, ("IN").data, ("IA").data,
   ("KS").data, ("KY").data, ("LA").data, ("ME").data, ("MD").data,
   ("MA").data, ("MI").data, ("MN").data, ("MS").data, ("MO").data,
   ("MT").data, ("NE").data, ("NV").data, ("NH").data, ("NJ").data,
   ("NM").data, ("NY").data, ("NC").data, ("ND").data, ("OH").data,
   ("OK").data, ("OR").data, ("PA").data, ("RI").data, ("SC").data,
   ("SD").data, ("TN").data, ("TX").data, ("UT").data, ("VT").data,
   ("VA").data, ("WA").data, ("WV").data, ("WI").data, ("WY").data]

/-- The per-state test of `extract_state`:
`f" {state}" in f" {location_upper}" or location_upper.endswith(state)`. -/
def stateMatches (location_upper : Str) (st : Str) : Bool :=
  isSubstrOf (' ' :: st) (' ' :: location_upper) || st.isSuffixOf location_upper

/-- `JobAggregator.extract_state` (job_aggregator.py lines 619-643).
The Python loop iterates a set literal; any state satisfying the test is
returned, so the result is modelled with the first match in source order. -/
def extract_state (location : Str) : Str :=
  if location = [] then ("Remote").data
  else
    match usStates.find? (fun st => stateMatches (location.map upperChar) st) with
    | some st => st
    | none =>
      if isSubstrOf (("remote").data) (location.map lowerChar) then ("Remote").data
      else ("Various").data

/-- A Python value in an optional date field: `None`, a string, or some
other object carrying only its truthiness. -/
inductive PyVal where
  | pyNone : PyVal
  | pyStr : Str → PyVal
  | pyOther : Bool → PyVal
deriving DecidableEq, Repr, Inhabited

/-- Python truthiness of a `PyVal`. -/
def pyTruthy : PyVal → Bool
  | .pyNone => false
  | .pyStr s => decide (s ≠ [])
  | .pyOther b => b

/-- `date_str.replace('Z', '+00:00')` (replaces every occurrence). -/
def replaceZ (s : Str) : Str :=
  s.foldr (fun c acc => if c = 'Z' then ("+00:00").data ++ acc else c :: acc) []

/-- `JobAggregator.parse_date` (job_aggregator.py lines 665-678).
`fromIso` is `datetime.fromisoformat` composed with `.isoformat()`
(standard library); `now` is the current UTC time's ISO form. -/
def parse_date (fromIso : Str → Option Str) (now : Str) (v : PyVal) : Str :=
  if pyTruthy v then
    match v with
    | .pyStr s =>
      match fromIso (replaceZ s) with
      | some t => t
      | none => now
    | _ => now
  else now

/-- The canonical job record produced by every Posting Normalizer
(the dict literal shared by `normalize_*_job`). Monetary fields are exact
rationals standing for the Python floats. -/
structure Posting where
  job_id : Str
  external_id : Str
  source : Str
  external_url : Str
  job_title : Str
  company_name : Str
  company_id : Str
  location : Str
  state : Str
  wage_level : Nat
  base_salary : ℚ
  prevailing_wage : ℚ
  job_description : Str
  requirements : List Str
  benefits : List Str
  visa_sponsorship : Bool
  posted_date : Str
  employment_type : Str
  lca_case_number : Option Str
  is_external : Bool
  last_synced : Str
deriving DecidableEq, Repr, Inhabited

/-- `comp_` id built from the normalized company name:
`f"comp_" + normalize_company_name(name).replace(' ', '_')`. -/
def companyId (company_name : Str) : Str :=
  ("comp_").data ++ (normalize_company_name company_name).map
    (fun c => if c = ' ' then '_' else c)

/-- Raw Arbeitnow record (the fields `normalize_arbeitnow_job` reads).
Fields whose `.get` default is the empty string are plain `Str` (a missing
key is the empty string); `location` and `job_types` keep their non-trivial
defaults via `Option`. -/
structure ArbeitnowJob where
  company_name : Str
  slug : Str
  url : Str
  title : Str
  description : Str
  location : Option Str
  job_types : Option (List Str)
  created_at : PyVal
deriving DecidableEq, Repr, Inhabited

/-- `JobAggregator.normalize_arbeitnow_job` (job_aggregator.py lines 314-358). -/
def normalize_arbeitnow_job (job : ArbeitnowJob) (h1b_companies : List Str)
    (fromIso : Str → Option Str) (extractReq : Str → List Str) (now : Str) :
    Option Posting :=
  if is_h1b_sponsor job.company_name h1b_companies = false then none
  else
    let location := job.location.getD (("Remote").data)
    some
      { job_id := ("arbeit_").data ++ job.slug
        external_id := job.slug
        source := ("arbeitnow").data
        external_url := job.url
        job_title := job.title
        company_name := job.company_name
        company_id := companyId job.company_name
        location := location
        state := extract_state location
        wage_level := 2
        base_salary := 0
        prevailing_wage := 0
        job_description := job.description.take 5000
        requirements := extractReq job.description
        benefits := []
        visa_sponsorship := true
        posted_date := parse_date fromIso now job.created_at
        employment_type :=
          match job.job_types with
          | some (t :: _) => t
          | _ => ("Full-time").data
        lca_case_number := none
        is_external := true
        last_synced := now }

/-- The `location` value of a raw Greenhouse record: a JSON object with a
`name` field, a bare (string) value, or absent/falsy. -/
inductive GhLoc where
  | locDict : Option Str → GhLoc
  | locStr : Str → GhLoc
deriving DecidableEq, Repr, Inhabited

/-- The `content` value of a raw Greenhouse record: a JSON object carrying a
`description`, a non-dict value, or absent/falsy (normalised to an empty
dict by `or {}`). -/
inductive GhContent where
  | cdict : Str → GhContent
  | cnonDict : GhContent
  | cabsent : GhContent
deriving DecidableEq, Repr, Inhabited

/-- Raw Greenhouse record; `board_token` is attached by the fetch step. -/
structure GreenhouseJob where
  board_token : Str
  id : Str
  absolute_url : Str
  title : Str
  location : GhLoc
  content : GhContent
  updated_at : PyVal
deriving DecidableEq, Repr, Inhabited

/-- The `token_to_company` table of `normalize_greenhouse_job`. -/
def token_to_company : List (Str × Str) :=
  [(("gitlab").data, ("GitLab").data),
   (("stripe").data, ("Stripe").data),
   (("airbnb").data, ("Airbnb").data),
   (("lyft").data, ("Lyft").data),
   (("dropbox").data, ("Dropbox").data),
   (("coinbase").data, ("Coinbase").data),
   (("square").data, ("Square").data),
   (("robinhood").data, ("Robinhood").data),
   (("doordash").data, ("DoorDash").data),
   (("instacart").data, ("Instacart").data),
   (("reddit").data, ("Reddit").data),
   (("databricks").data, ("Databricks").data),
   (("snowflake").data, ("Snowflake").data),
   (("mongodb").data, ("MongoDB").data),
   (("plaid").data, ("Plaid").data),
   (("notion").data, ("Notion").data),
   (("figma").data, ("Figma").data),
   (("airtable").data, ("Airtable").data),
   (("asana").data, ("Asana").data),
   (("cloudflare").data, ("Cloudflare").data)]

/-- `token_to_company.get(board_token.lower(), board_token.title())`. -/
def ghCompanyName (board_token : Str) : Str :=
  match token_to_company.find? (fun kv => decide (kv.1 = board_token.map lowerChar)) with
  | some kv => kv.2
  | none => pyTitle board_token

/-- `JobAggregator.normalize_greenhouse_job` (job_aggregator.py lines 360-439). -/
def normalize_greenhouse_job (job : GreenhouseJob) (h1b_companies : List Str)
    (fromIso : Str → Option Str) (extractReq : Str → List Str) (now : Str) :
    Option Posting :=
  let company_name := ghCompanyName job.board_token
  if is_h1b_sponsor company_name h1b_companies = false then none
  else
    let location :=
      match job.location with
      | .locDict nm => nm.getD (("Remote").data)
      | .locStr s => if s = [] then ("Remote").data else s
    let description :=
      match job.content with
      | .cdict d => d
      | _ => []
    some
      { job_id := ("gh_").data ++ job.id
        external_id := job.id
        source := ("greenhouse").data
        external_url := job.absolute_url
        job_title := job.title
        company_name := company_name
        company_id := companyId company_name
        location := location
        state := extract_state location
        wage_level := 2
        base_salary := 0
        prevailing_wage := 0
        job_description := description.take 5000
        requirements := extractReq description
        benefits := []
        visa_sponsorship := true
        posted_date := parse_date fromIso now job.updated_at
        employment_type := ("Full-time").data
        lca_case_number := none
        is_external := true
        last_synced := now }

/-- One entry of `PositionLocation` in a raw USAJOBS record. -/
structure UsaLoc where
  CityName : Str
  LocationName : Str
deriving DecidableEq, Repr, Inhabited

/-- One entry of `PositionRemuneration` in a raw USAJOBS record. -/
structure UsaRem where
  MinimumRange : ℚ
  MaximumRange : ℚ
deriving DecidableEq, Repr, Inhabited

/-- One entry of `PositionSchedule` in a raw USAJOBS record. -/
structure UsaSched where
  Name : Option Str
deriving DecidableEq, Repr, Inhabited

/-- The `MatchedObjectDescriptor` of a raw USAJOBS record (the fields
`normalize_usajobs_job` reads); `JobSummary` flattens
`UserArea.Details.JobSummary` with its empty-string defaults. -/
structure UsaJob where
  OrganizationName : Str
  PositionID : Str
  PositionURI : Str
  PositionTitle : Str
  PositionLocation : List UsaLoc
  PositionRemuneration : List UsaRem
  PositionSchedule : List UsaSched
  JobSummary : Str
  QualificationSummary : Str
  PublicationStartDate : PyVal
deriving DecidableEq, Repr, Inhabited

/-- A raw USAJOBS search result item. -/
structure UsaItem where
  MatchedObjectDescriptor : UsaJob
deriving DecidableEq, Repr, Inhabited

/-- Python truthiness of a number. -/
def qTruthy (q : ℚ) : Bool := decide (q ≠ 0)

/-- `JobAggregator.normalize_usajobs_job` (job_aggregator.py lines 441-500).
Unlike every other normalizer, it never consults `is_h1b_sponsor`: the
source comment says government jobs are included regardless, so the
`h1b_companies` argument is unused. -/
def normalize_usajobs_job (job_item : UsaItem) (h1b_companies : List Str)
    (fromIso : Str → Option Str) (extractReq : Str → List Str) (now : Str) :
    Option Posting :=
  let _ := h1b_companies
  let job := job_item.MatchedObjectDescriptor
  let org_name := job.OrganizationName
  let locState : Str × Str :=
    match job.PositionLocation with
    | location_data :: _ =>
      let city := location_data.CityName
      let state_code := pyStrip ((List.splitOn ',' location_data.LocationName).getLastD [])
      (if city ≠ [] then city ++ (", ").data ++ state_code else state_code,
       if state_code.length = 2 then state_code else ("Various").data)
    | [] => (("Various Locations").data, ("Various").data)
  let salary_min : ℚ :=
    match job.PositionRemuneration with
    | r :: _ => r.MinimumRange
    | [] => 0
  let salary_max : ℚ :=
    match job.PositionRemuneration with
    | r :: _ => r.MaximumRange
    | [] => 0
  let base_salary : ℚ :=
    if qTruthy salary_min && qTruthy salary_max then (salary_min + salary_max) / 2
    else salary_min
  some
    { job_id := ("usa_").data ++ job.PositionID
      external_id := job.PositionID
      source := ("usajobs").data
      external_url := job.PositionURI
      job_title := job.PositionTitle
      company_name := org_name
      company_id := ("comp_us_gov").data
      location := locState.1
      state := locState.2
      wage_level := 2
      base_salary := base_salary
      prevailing_wage := 0
      job_description := job.JobSummary.take 5000
      requirements := extractReq job.QualificationSummary
      benefits := []
      visa_sponsorship := false
      posted_date := parse_date fromIso now job.PublicationStartDate
      employment_type :=
        match job.PositionSchedule with
        | s :: _ => s.Name.getD (("Full-time").data)
        | [] => ("Full-time").data
      lca_case_number := none
      is_external := true
      last_synced := now }

/-- Raw JSearch record (the fields `normalize_jsearch_job` reads);
`job_highlights_Benefits` flattens `job_highlights.get("Benefits", [])`,
`none` standing for an absent or falsy `job_highlights`. -/
structure JsearchJob where
  employer_name : Str
  job_id : Str
  job_city : Str
  job_state : Str
  job_country : Option Str
  job_min_salary : Option ℚ
  job_max_salary : Option ℚ
  job_apply_link : Option Str
  job_google_link : Str
  job_title : Str
  job_description : Str
  job_highlights_Benefits : Option (List Str)
  job_is_remote : Bool
  job_posted_at_datetime_utc : PyVal
  job_employment_type : Option Str
deriving DecidableEq, Repr, Inhabited

/-- Python truthiness of an optional number (`None` and `0` are falsy). -/
def optQTruthy : Option ℚ → Bool
  | some q => qTruthy q
  | none => false

/-- The shared salary-midpoint logic of the JSearch and Adzuna normalizers:
mean when both bounds are truthy, else whichever bound is truthy, else 0. -/
def salaryMid (salary_min salary_max : Option ℚ) : ℚ :=
  if optQTruthy salary_min && optQTruthy salary_max then
    (salary_min.getD 0 + salary_max.getD 0) / 2
  else if optQTruthy salary_min then salary_min.getD 0
  else if optQTruthy salary_max then salary_max.getD 0
  else 0

/-- `JobAggregator.normalize_jsearch_job` (job_aggregator.py lines 502-561). -/
def normalize_jsearch_job (job : JsearchJob) (h1b_companies : List Str)
    (fromIso : Str → Option Str) (extractReq : Str → List Str) (now : Str) :
    Option Posting :=
  if is_h1b_sponsor job.employer_name h1b_companies = false then none
  else
    let location :=
      if job.job_city ≠ [] ∧ job.job_state ≠ [] then
        job.job_city ++ (", ").data ++ job.job_state
      else if job.job_state ≠ [] then job.job_state
      else job.job_country.getD (("USA").data)
    let base_salary := salaryMid job.job_min_salary job.job_max_salary
    some
      { job_id := ("js_").data ++ job.job_id
        external_id := job.job_id
        source := ("jsearch").data
        external_url := job.job_apply_link.getD job.job_google_link
        job_title := job.job_title
        company_name := job.employer_name
        company_id := companyId job.employer_name
        location := location
        state := if job.job_state ≠ [] then job.job_state else extract_state location
        wage_level := 2
        base_salary := base_salary
        prevailing_wage := 0
        job_description := job.job_description.take 5000
        requirements := extractReq job.job_description
        benefits :=
          match job.job_highlights_Benefits with
          | some l => l.take 5
          | none => []
        visa_sponsorship := job.job_is_remote
        posted_date := parse_date fromIso now job.job_posted_at_datetime_utc
        employment_type := job.job_employment_type.getD (("Full-time").data)
        lca_case_number := none
        is_external := true
        last_synced := now }

/-- Raw Adzuna record (the fields `normalize_adzuna_job` reads);
`company_display_name` and `location_display_name` flatten the nested
`company.display_name` / `location.display_name` dicts, with the empty
string standing for a missing or non-dict value. -/
structure AdzunaJob where
  company_display_name : Str
  id : Str
  redirect_url : Str
  title : Str
  location_display_name : Str
  salary_min : Option ℚ
  salary_max : Option ℚ
  description : Str
  created : PyVal
  contract_type : Option Str
deriving DecidableEq, Repr, Inhabited

/-- `JobAggregator.normalize_adzuna_job` (job_aggregator.py lines 563-617). -/
def normalize_adzuna_job (job : AdzunaJob) (h1b_companies : List Str)
    (fromIso : Str → Option Str) (extractReq : Str → List Str) (now : Str) :
    Option Posting :=
  if is_h1b_sponsor job.company_display_name h1b_companies = false then none
  else
    let location_area := job.location_display_name
    let location_parts := List.splitOn ',' location_area
    let state :=
      if 1 < location_parts.length then pyStrip (location_parts.getLastD []) else []
    let base_salary := salaryMid job.salary_min job.salary_max
    some
      { job_id := ("adz_").data ++ job.id
        external_id := job.id
        source := ("adzuna").data
        external_url := job.redirect_url
        job_title := job.title
        company_name := job.company_display_name
        company_id := companyId job.company_display_name
        location := location_area
        state := if state ≠ [] then state else extract_state location_area
        wage_level := 2
        base_salary := base_salary
        prevailing_wage := 0
        job_description := job.description.take 5000
        requirements := extractReq job.description
        benefits := []
        visa_sponsorship := true
        posted_date := parse_date fromIso now job.created
        employment_type := job.contract_type.getD (("Full-time").data)
        lca_case_number := none
        is_external := true
        last_synced := now }

/-- The transport outcome of one outbound request: a 200 response with a
parsed payload, a non-200 status, or a raised exception. -/
inductive SourceResp (α : Type) where
  | ok : List α → SourceResp α
  | httpError : Nat → SourceResp α
  | exn : SourceResp α
deriving DecidableEq, Repr, Inhabited

/-- Python truthiness of an optional credential string. -/
def optStrTruthy : Option Str → Bool
  | some s => decide (s ≠ [])
  | none => false

/-- `JobAggregator.fetch_arbeitnow_jobs` (lines 104-120): non-200 and
exceptions both collapse to an empty result. -/
def fetch_arbeitnow_jobs (r : SourceResp ArbeitnowJob) : List ArbeitnowJob :=
  match r with
  | .ok jobs => jobs
  | _ => []

/-- `JobAggregator.fetch_usajobs` (lines 122-161): missing credential skips
with an empty result; otherwise one request whose failure yields `[]`. -/
def fetch_usajobs (api_key : Option Str) (r : SourceResp UsaItem) : List UsaItem :=
  if optStrTruthy api_key = false then []
  else
    match r with
    | .ok jobs => jobs
    | _ => []

/-- The fixed query list of `fetch_jsearch_jobs`. -/
def jsearchQueries : List Str :=
  [("software engineer USA").data,
   ("data scientist USA").data,
   ("web developer USA").data,
   ("product manager USA").data,
   ("devops engineer USA").data]

/-- `JobAggregator.fetch_jsearch_jobs` (lines 163-223): per-query responses;
a failed query contributes nothing and the loop continues. -/
def fetch_jsearch_jobs (api_key : Option Str) (resp : Str → SourceResp JsearchJob) :
    List JsearchJob :=
  if optStrTruthy api_key = false then []
  else
    (jsearchQueries.map (fun q =>
      match resp q with
      | .ok jobs => jobs
      | _ => [])).flatten

/-- The fixed search list of `fetch_adzuna_jobs`. -/
def adzunaSearches : List (Str × Str) :=
  [(("software engineer").data, ("New York").data),
   (("software engineer").data, ("San Francisco").data),
   (("software engineer").data, ("Seattle").data),
   (("data scientist").data, ("New York").data),
   (("data scientist").data, ("California").data),
   (("web developer").data, ("Texas").data),
   (("product manager").data, ("New York").data),
   (("devops engineer").data, ("Washington").data)]

/-- `JobAggregator.fetch_adzuna_jobs` (lines 225-284). -/
def fetch_adzuna_jobs (app_id app_key : Option Str)
    (resp : Str × Str → SourceResp AdzunaJob) : List AdzunaJob :=
  if optStrTruthy app_id = false || optStrTruthy app_key = false then []
  else
    (adzunaSearches.map (fun s =>
      match resp s with
      | .ok jobs => jobs
      | _ => [])).flatten

/-- The board-token list hard-coded in `sync_jobs`. -/
def greenhouse_tokens : List Str :=
  [("gitlab").data, ("stripe").data, ("airbnb").data, ("lyft").data,
   ("dropbox").data, ("coinbase").data, ("square").data, ("robinhood").data,
   ("doordash").data, ("instacart").data, ("reddit").data,
   ("databricks").data, ("snowflake").data, ("mongodb").data,
   ("plaid").data, ("notion").data, ("figma").data, ("airtable").data,
   ("asana").data, ("cloudflare").data]

/-- `JobAggregator.fetch_greenhouse_jobs` (lines 286-312): per-board
responses; each fetched job gets its `board_token` attached. -/
def fetch_greenhouse_jobs (board_tokens : List Str)
    (resp : Str → SourceResp GreenhouseJob) : List GreenhouseJob :=
  (board_tokens.map (fun token =>
    match resp token with
    | .ok jobs => jobs.map (fun j => { j with board_token := token })
    | _ => [])).flatten

/-- The credential environment read by `sync_jobs` via `os.environ.get`. -/
structure Env where
  jsearch_api_key : Option Str
  adzuna_app_id : Option Str
  adzuna_app_key : Option Str
  usajobs_api_key : Option Str

/-- One sync pass's transport outcomes, one per outbound request family. -/
structure Transports where
  arbeitnow : SourceResp ArbeitnowJob
  jsearch : Str → SourceResp JsearchJob
  adzuna : Str × Str → SourceResp AdzunaJob
  usajobs : SourceResp UsaItem
  greenhouse : Str → SourceResp GreenhouseJob

/-- The `all_normalized_jobs` list built by `sync_jobs` (lines 693-748), in
source order: Arbeitnow, JSearch, Adzuna, USAJOBS, Greenhouse; the three
credentialed sources are consulted only when their keys are truthy. -/
def pipelinePostings (S : List Str) (env : Env) (tr : Transports)
    (fromIso : Str → Option Str) (extractReq : Str → List Str) (now : Str) :
    List Posting :=
  ((fetch_arbeitnow_jobs tr.arbeitnow).filterMap
      (fun j => normalize_arbeitnow_job j S fromIso extractReq now)) ++
  (if optStrTruthy env.jsearch_api_key then
      (fetch_jsearch_jobs env.jsearch_api_key tr.jsearch).filterMap
        (fun j => normalize_jsearch_job j S fromIso extractReq now)
    else []) ++
  (if optStrTruthy env.adzuna_app_id && optStrTruthy env.adzuna_app_key then
      (fetch_adzuna_jobs env.adzuna_app_id env.adzuna_app_key tr.adzuna).filterMap
        (fun j => normalize_adzuna_job j S fromIso extractReq now)
    else []) ++
  (if optStrTruthy env.usajobs_api_key then
      (fetch_usajobs env.usajobs_api_key tr.usajobs).filterMap
        (fun j => normalize_usajobs_job j S fromIso extractReq now)
    else []) ++
  ((fetch_greenhouse_jobs greenhouse_tokens tr.greenhouse).filterMap
      (fun j => normalize_greenhouse_job j S fromIso extractReq now))

/-- The dedup key `f"{job['source']}_{job['external_id']}"` (line 753). -/
def dedupKey (p : Posting) : Str := p.source ++ '_' :: p.external_id

/-- Keys of an association list. -/
def keysOf (st : List (Str × Posting)) : List Str := st.map (fun kv => kv.1)

/-- First-match lookup in an association list (`find_one` on a unique key). -/
def lookupA (st : List (Str × Posting)) (k : Str) : Option Posting :=
  (st.find? (fun kv => decide (kv.1 = k))).map (fun kv => kv.2)

/-- Replace the value at a key, keeping the list's shape (`update_one`
with `$set` of the whole record / dict assignment to a present key). -/
def setA (st : List (Str × Posting)) (k : Str) (v : Posting) : List (Str × Posting) :=
  st.map (fun kv => if kv.1 = k then (k, v) else kv)

/-- Key-presence test. -/
def hasKey (st : List (Str × Posting)) (k : Str) : Bool :=
  st.any (fun kv => decide (kv.1 = k))

/-- Python dict assignment `d[k] = v`: replace in place when present,
append otherwise. -/
def setOrAppend (st : List (Str × Posting)) (k : Str) (v : Posting) :
    List (Str × Posting) :=
  if hasKey st k then setA st k v else st ++ [(k, v)]

/-- Fold a posting list into an association list under a key function. -/
def foldPut (key : Posting → Str) (acc : List (Str × Posting)) (jobs : List Posting) :
    List (Str × Posting) :=
  jobs.foldl (fun a j => setOrAppend a (key j) j) acc

/-- The `unique_jobs` dict of `sync_jobs` (lines 750-754): key by
`source_external-id`, last write wins, insertion order preserved. -/
def dedupe (jobs : List Posting) : List (Str × Posting) :=
  foldPut dedupKey [] jobs

/-- One store upsert (lines 762-778): `find_one` by `job_id`, then
`update_one` or `insert_one`; the boolean is true on the insert branch. -/
def upsert1 (st : List (Str × Posting)) (p : Posting) :
    List (Str × Posting) × Bool :=
  match lookupA st p.job_id with
  | some _ => (setA st p.job_id p, false)
  | none => (st ++ [(p.job_id, p)], true)

/-- The upsert loop of `sync_jobs`: final store plus the
`(inserted_count, updated_count)` tally. -/
def upsertAll : List (Str × Posting) → List Posting →
    List (Str × Posting) × Nat × Nat
  | st, [] => (st, 0, 0)
  | st, p :: ps =>
    let r := upsert1 st p
    let rest := upsertAll r.1 ps
    (rest.1,
     (if r.2 then 1 else 0) + rest.2.1,
     (if r.2 then 0 else 1) + rest.2.2)

/-- Outcome of one sync pass: the early-return "Skipping sync" path, or the
normal completion path (`sync_jobs` has no other terminal report). -/
inductive SyncOutcome where
  | skipped : SyncOutcome
  | completed : SyncOutcome
deriving DecidableEq, Repr, Inhabited

/-- Result of one modelled sync pass; `contacted` records which Source
Connectors were invoked, in source order. -/
structure SyncResult where
  status : SyncOutcome
  store : List (Str × Posting)
  inserted : Nat
  updated : Nat
  contacted : List Str
deriving Repr

/-- The connectors `sync_jobs` invokes for a given credential environment. -/
def contactedSources (env : Env) : List Str :=
  ("arbeitnow").data ::
    ((if optStrTruthy env.jsearch_api_key then [("jsearch").data] else []) ++
     (if optStrTruthy env.adzuna_app_id && optStrTruthy env.adzuna_app_key then
        [("adzuna").data] else []) ++
     (if optStrTruthy env.usajobs_api_key then [("usajobs").data] else []) ++
     [("greenhouse").data])

/-- `JobAggregator.sync_jobs` (job_aggregator.py lines 680-784).
`S` is the target-employer snapshot returned by `get_h1b_companies`;
an empty snapshot takes the early `return` at lines 689-691 before any
fetch. -/
def sync_jobs (S : List Str) (env : Env) (tr : Transports)
    (fromIso : Str → Option Str) (extractReq : Str → List Str) (now : Str)
    (store : List (Str × Posting)) : SyncResult :=
  if S = [] then
    { status := .skipped, store := store, inserted := 0, updated := 0,
      contacted := [] }
  else
    let unique_jobs := dedupe (pipelinePostings S env tr fromIso extractReq now)
    let r := upsertAll store (unique_jobs.map (fun kv => kv.2))
    { status := .completed, store := r.1, inserted := r.2.1, updated := r.2.2,
      contacted := contactedSources env }

/-- Count of store documents with a given `source`
(`db.jobs.count_documents({"source": src})`). -/
def countSource (st : List (Str × Posting)) (src : Str) : Nat :=
  (st.filter (fun kv => decide (kv.2.source = src))).length

/-- Lexicographic strict order on strings (byte order, as MongoDB sorts
ISO timestamps). -/
def strLt : Str → Str → Bool
  | [], [] => false
  | [], _ :: _ => true
  | _ :: _, [] => false
  | a :: as, b :: bs =>
    if a.toNat < b.toNat then true
    else if a.toNat = b.toNat then strLt as bs
    else false

/-- The `last_synced` of the most recent external job
(`find_one` sorted by `last_synced` descending). -/
def lastSyncedOf (st : List (Str × Posting)) : Option Str :=
  ((st.filter (fun kv => kv.2.is_external)).map (fun kv => kv.2.last_synced)).foldl
    (fun acc s =>
      match acc with
      | none => some s
      | some m => if strLt m s then some s else some m)
    none

/-- The status dict returned by `get_sync_status` on its success path. -/
structure StatusReport where
  total_external_jobs : Nat
  arbeitnow_jobs : Nat
  greenhouse_jobs : Nat
  usajobs_jobs : Nat
  jsearch_jobs : Nat
  adzuna_jobs : Nat
  internal_jobs : Nat
  last_synced : Option Str
  status : Str
deriving DecidableEq, Repr, Inhabited

/-- `JobAggregator.get_sync_status` (job_aggregator.py lines 786-821),
success path: per-source counts recomputed from the store and the constant
status string. -/
def get_sync_status (st : List (Str × Posting)) : StatusReport :=
  let arbeitnow_count := countSource st (("arbeitnow").data)
  let greenhouse_count := countSource st (("greenhouse").data)
  let usajobs_count := countSource st (("usajobs").data)
  let jsearch_count := countSource st (("jsearch").data)
  let adzuna_count := countSource st (("adzuna").data)
  { total_external_jobs :=
      arbeitnow_count + greenhouse_count + usajobs_count + jsearch_count +
        adzuna_count
    arbeitnow_jobs := arbeitnow_count
    greenhouse_jobs := greenhouse_count
    usajobs_jobs := usajobs_count
    jsearch_jobs := jsearch_count
    adzuna_jobs := adzuna_count
    internal_jobs := (st.filter (fun kv => kv.2.is_external = false)).length
    last_synced := lastSyncedOf st
    status := ("active").data }


theorem keysOf_cons (kv : Str × Posting) (st : List (Str × Posting)) :
    keysOf (kv :: st) = kv.1 :: keysOf st := rfl

theorem lookupA_cons (kv : Str × Posting) (st : List (Str × Posting)) (k : Str) :
    lookupA (kv :: st) k = if kv.1 = k then some kv.2 else lookupA st k := by
  by_cases h : kv.1 = k <;> simp [lookupA, List.find?_cons, h]

theorem hasKey_iff_mem (st : List (Str × Posting)) (k : Str) :
    hasKey st k = true ↔ k ∈ keysOf st := by
  induction st with
  | nil => simp [hasKey, keysOf]
  | cons kv st ih =>
    simp only [hasKey, List.any_cons, Bool.or_eq_true, decide_eq_true_eq,
      keysOf_cons, List.mem_cons]
    rw [hasKey] at ih
    rw [ih]
    constructor
    · rintro (h | h)
      · exact Or.inl h.symm
      · exact Or.inr h
    · rintro (h | h)
      · exact Or.inl h.symm
      · exact Or.inr h

theorem lookupA_isSome_iff (st : List (Str × Posting)) (k : Str) :
    (lookupA st k).isSome = true ↔ k ∈ keysOf st := by
  induction st with
  | nil => simp [lookupA, keysOf]
  | cons kv st ih =>
    rw [lookupA_cons, keysOf_cons]
    by_cases h : kv.1 = k
    · simp [h]
    · rw [if_neg h, List.mem_cons, ih]
      constructor
      · intro hm
        exact Or.inr hm
      · rintro (hk | hm)
        · exact absurd hk.symm h
        · exact hm

theorem lookupA_eq_none_iff (st : List (Str × Posting)) (k : Str) :
    lookupA st k = none ↔ k ∉ keysOf st := by
  rw [← lookupA_isSome_iff]
  cases h : lookupA st k <;> simp

theorem setA_cons (kv : Str × Posting) (st : List (Str × Posting)) (k : Str)
    (v : Posting) :
    setA (kv :: st) k v = (if kv.1 = k then (k, v) else kv) :: setA st k v := rfl

theorem keysOf_setA (st : List (Str × Posting)) (k : Str) (v : Posting) :
    keysOf (setA st k v) = keysOf st := by
  induction st with
  | nil => rfl
  | cons kv st ih =>
    rw [setA_cons, keysOf_cons, keysOf_cons, ih]
    by_cases h : kv.1 = k
    · rw [if_pos h, h]
    · rw [if_neg h]

theorem lookupA_setA_self (st : List (Str × Posting)) (k : Str) (v : Posting)
    (h : k ∈ keysOf st) : lookupA (setA st k v) k = some v := by
  induction st with
  | nil => simp [keysOf] at h
  | cons kv st ih =>
    rw [setA_cons, lookupA_cons]
    by_cases hk : kv.1 = k
    · rw [if_pos hk]
      simp
    · rw [if_neg hk]
      simp only [if_neg hk]
      rw [keysOf_cons, List.mem_cons] at h
      rcases h with h | h
      · exact absurd h.symm hk
      · exact ih h

theorem lookupA_setA_ne (st : List (Str × Posting)) (k : Str) (v : Posting)
    (k' : Str) (h : k' ≠ k) : lookupA (setA st k v) k' = lookupA st k' := by
  induction st with
  | nil => rfl
  | cons kv st ih =>
    rw [setA_cons, lookupA_cons, lookupA_cons]
    by_cases hk : kv.1 = k
    · rw [if_pos hk, if_neg h.symm, if_neg (hk ▸ (fun he => h he.symm) : ¬kv.1 = k'), ih]
    · rw [if_neg hk]
      by_cases hk' : kv.1 = k'
      · rw [if_pos hk', if_pos hk']
      · rw [if_neg hk', if_neg hk', ih]

theorem keysOf_append (s t : List (Str × Posting)) :
    keysOf (s ++ t) = keysOf s ++ keysOf t := by
  simp [keysOf]

theorem lookupA_append_right (s t : List (Str × Posting)) (k : Str)
    (h : k ∉ keysOf s) : lookupA (s ++ t) k = lookupA t k := by
  induction s with
  | nil => rfl
  | cons kv s ih =>
    rw [keysOf_cons, List.mem_cons] at h
    push_neg at h
    rw [List.cons_append, lookupA_cons, if_neg (fun he => h.1 he.symm)]
    exact ih h.2

theorem lookupA_append_left (s t : List (Str × Posting)) (k : Str)
    (h : k ∈ keysOf s) : lookupA (s ++ t) k = lookupA s k := by
  induction s with
  | nil => simp [keysOf] at h
  | cons kv s ih =>
    rw [List.cons_append, lookupA_cons, lookupA_cons]
    by_cases hk : kv.1 = k
    · rw [if_pos hk, if_pos hk]
    · rw [if_neg hk, if_neg hk]
      rw [keysOf_cons, List.mem_cons] at h
      rcases h with h | h
      · exact absurd h.symm hk
      · exact ih h

theorem keysOf_setOrAppend_of_mem (st : List (Str × Posting)) (k : Str)
    (v : Posting) (h : k ∈ keysOf st) :
    keysOf (setOrAppend st k v) = keysOf st := by
  rw [setOrAppend, if_pos ((hasKey_iff_mem st k).mpr h), keysOf_setA]

theorem keysOf_setOrAppend_of_not_mem (st : List (Str × Posting)) (k : Str)
    (v : Posting) (h : k ∉ keysOf st) :
    keysOf (setOrAppend st k v) = keysOf st ++ [k] := by
  rw [setOrAppend, if_neg, keysOf_append]
  · rfl
  · intro hh
    exact h ((hasKey_iff_mem st k).mp hh)

theorem lookupA_setOrAppend_self (st : List (Str × Posting)) (k : Str)
    (v : Posting) : lookupA (setOrAppend st k v) k = some v := by
  rw [setOrAppend]
  by_cases h : hasKey st k = true
  · rw [if_pos h]
    exact lookupA_setA_self st k v ((hasKey_iff_mem st k).mp h)
  · rw [if_neg h, lookupA_append_right]
    · rw [lookupA_cons, if_pos rfl]
    · intro hm
      exact h ((hasKey_iff_mem st k).mpr hm)

theorem lookupA_setOrAppend_ne (st : List (Str × Posting)) (k : Str)
    (v : Posting) (k' : Str) (h : k' ≠ k) :
    lookupA (setOrAppend st k v) k' = lookupA st k' := by
  rw [setOrAppend]
  by_cases hk : hasKey st k = true
  · rw [if_pos hk]
    exact lookupA_setA_ne st k v k' h
  · rw [if_neg hk]
    by_cases hm : k' ∈ keysOf st
    · exact lookupA_append_left st [(k, v)] k' hm
    · rw [lookupA_append_right st [(k, v)] k' hm, lookupA_cons,
        if_neg (fun he => h he.symm), (lookupA_eq_none_iff st k').mpr hm]
      rfl

theorem mem_keysOf_setOrAppend (st : List (Str × Posting)) (k : Str)
    (v : Posting) (k' : Str) (h : k' ∈ keysOf st) :
    k' ∈ keysOf (setOrAppend st k v) := by
  by_cases hm : k ∈ keysOf st
  · rw [keysOf_setOrAppend_of_mem st k v hm]
    exact h
  · rw [keysOf_setOrAppend_of_not_mem st k v hm]
    exact List.mem_append_left _ h

theorem nodup_keysOf_setOrAppend (st : List (Str × Posting)) (k : Str)
    (v : Posting) (h : (keysOf st).Nodup) :
    (keysOf (setOrAppend st k v)).Nodup := by
  by_cases hm : k ∈ keysOf st
  · rw [keysOf_setOrAppend_of_mem st k v hm]
    exact h
  · rw [keysOf_setOrAppend_of_not_mem st k v hm]
    simp [List.nodup_append, h, hm]

def lastBy (key : Posting → Str) (jobs : List Posting) (k : Str) : Option Posting :=
  jobs.reverse.find? (fun p => decide (key p = k))

theorem find?_append_gen {α : Type} (p : α → Bool) (l₁ l₂ : List α) :
    (l₁ ++ l₂).find? p =
      match l₁.find? p with
      | some x => some x
      | none => l₂.find? p := by
  induction l₁ with
  | nil => rfl
  | cons a l ih =>
    rw [List.cons_append, List.find?_cons, List.find?_cons]
    cases p a <;> simp [ih]

theorem lastBy_cons (key : Posting → Str) (j : Posting) (js : List Posting)
    (k : Str) :
    lastBy key (j :: js) k =
      match lastBy key js k with
      | some p => some p
      | none => if key j = k then some j else none := by
  rw [lastBy, List.reverse_cons, find?_append_gen]
  rcases h : List.find? (fun p => decide (key p = k)) js.reverse with _ | p <;>
    simp only [lastBy, h]
  by_cases hk : key j = k <;> simp [List.find?, hk]

theorem foldPut_cons (key : Posting → Str) (acc : List (Str × Posting))
    (j : Posting) (js : List Posting) :
    foldPut key acc (j :: js) = foldPut key (setOrAppend acc (key j) j) js := rfl

theorem lookupA_foldPut (key : Posting → Str) (jobs : List Posting) :
    ∀ acc k, lookupA (foldPut key acc jobs) k =
      match lastBy key jobs k with
      | some p => some p
      | none => lookupA acc k := by
  induction jobs with
  | nil =>
    intro acc k
    rfl
  | cons j js ih =>
    intro acc k
    rw [foldPut_cons, ih, lastBy_cons]
    rcases h : lastBy key js k with _ | p <;> simp only [h]
    by_cases hk : key j = k
    · simp only [if_pos hk]
      rw [← hk]
      exact lookupA_setOrAppend_self acc (key j) j
    · simp only [if_neg hk]
      exact lookupA_setOrAppend_ne acc (key j) j k (fun he => hk he.symm)

theorem find?_isSome_of_mem {α : Type} (p : α → Bool) (l : List α) (a : α)
    (ha : a ∈ l) (hp : p a = true) : (l.find? p).isSome = true := by
  induction l with
  | nil => simp at ha
  | cons b l ih =>
    rw [List.find?_cons]
    cases hb : p b
    · simp only
      rcases List.mem_cons.mp ha with h | h
      · rw [h, hb] at hp
        exact absurd hp (by simp)
      · exact ih h
    · rfl

theorem lastBy_isSome_of_mem (key : Posting → Str) (jobs : List Posting)
    (p : Posting) (hp : p ∈ jobs) : (lastBy key jobs (key p)).isSome = true := by
  rw [lastBy]
  exact find?_isSome_of_mem _ _ p (List.mem_reverse.mpr hp) (by simp)

theorem mem_keysOf_foldPut_of_mem (key : Posting → Str) (jobs : List Posting)
    (acc : List (Str × Posting)) (p : Posting) (hp : p ∈ jobs) :
    key p ∈ keysOf (foldPut key acc jobs) := by
  rw [← lookupA_isSome_iff, lookupA_foldPut]
  rcases h : lastBy key jobs (key p) with _ | q
  · have := lastBy_isSome_of_mem key jobs p hp
    rw [h] at this
    simp at this
  · rfl

theorem keysOf_foldPut_of_all_mem (key : Posting → Str) (jobs : List Posting) :
    ∀ acc, (∀ p ∈ jobs, key p ∈ keysOf acc) →
      keysOf (foldPut key acc jobs) = keysOf acc := by
  induction jobs with
  | nil =>
    intro acc _
    rfl
  | cons j js ih =>
    intro acc h
    rw [foldPut_cons]
    have hj : key j ∈ keysOf acc := h j (List.mem_cons_self j js)
    have hkeys := keysOf_setOrAppend_of_mem acc (key j) j hj
    rw [ih (setOrAppend acc (key j) j) (fun p hp => by
      rw [hkeys]
      exact h p (List.mem_cons_of_mem j hp)), hkeys]

theorem nodup_keysOf_foldPut (key : Posting → Str) (jobs : List Posting) :
    ∀ acc, (keysOf acc).Nodup → (keysOf (foldPut key acc jobs)).Nodup := by
  induction jobs with
  | nil =>
    intro acc h
    exact h
  | cons j js ih =>
    intro acc h
    rw [foldPut_cons]
    exact ih _ (nodup_keysOf_setOrAppend acc (key j) j h)

theorem assoc_ext (s₁ : List (Str × Posting)) :
    ∀ s₂ : List (Str × Posting), keysOf s₁ = keysOf s₂ →
      (keysOf s₁).Nodup → (∀ k, lookupA s₁ k = lookupA s₂ k) → s₁ = s₂ := by
  induction s₁ with
  | nil =>
    intro s₂ hk _ _
    cases s₂ with
    | nil => rfl
    | cons kv t => simp [keysOf] at hk
  | cons kv t ih =>
    intro s₂ hk hnd hl
    cases s₂ with
    | nil => simp [keysOf] at hk
    | cons kv' t' =>
      rw [keysOf_cons, keysOf_cons] at hk
      have hkey : kv.1 = kv'.1 := (List.cons_eq_cons.mp hk).1
      have htail : keysOf t = keysOf t' := (List.cons_eq_cons.mp hk).2
      have hval : kv.2 = kv'.2 := by
        have hh := hl kv.1
        rw [lookupA_cons, lookupA_cons, if_pos rfl, if_pos hkey.symm] at hh
        exact Option.some_inj.mp hh
      have hnotmem : kv.1 ∉ keysOf t := by
        rw [keysOf_cons] at hnd
        exact (List.nodup_cons.mp hnd).1
      have hnotmem' : kv.1 ∉ keysOf t' := htail ▸ hnotmem
      have htl : ∀ k, lookupA t k = lookupA t' k := by
        intro k
        by_cases hke : k = kv.1
        · rw [hke, (lookupA_eq_none_iff t kv.1).mpr hnotmem,
            (lookupA_eq_none_iff t' kv.1).mpr hnotmem']
        · have hh := hl k
          rw [lookupA_cons, lookupA_cons, if_neg (fun he => hke he.symm),
            if_neg (fun he => hke (hkey ▸ he.symm))] at hh
          exact hh
      have ht : t = t' := by
        refine ih t' htail ?_ htl
        rw [keysOf_cons] at hnd
        exact (List.nodup_cons.mp hnd).2
      have hp : kv = kv' := Prod.ext hkey hval
      rw [hp, ht]

theorem upsert1_store (st : List (Str × Posting)) (p : Posting) :
    (upsert1 st p).1 = setOrAppend st p.job_id p := by
  rcases h : lookupA st p.job_id with _ | v <;> simp only [upsert1, h, setOrAppend]
  · rw [if_neg]
    intro hh
    exact ((lookupA_eq_none_iff st p.job_id).mp h) ((hasKey_iff_mem st p.job_id).mp hh)
  · rw [if_pos]
    refine (hasKey_iff_mem st p.job_id).mpr ?_
    rw [← lookupA_isSome_iff, h]
    rfl

theorem upsert1_flag_of_mem (st : List (Str × Posting)) (p : Posting)
    (h : p.job_id ∈ keysOf st) : (upsert1 st p).2 = false := by
  have hs : (lookupA st p.job_id).isSome = true := (lookupA_isSome_iff st p.job_id).mpr h
  rcases hl : lookupA st p.job_id with _ | v
  · rw [hl] at hs
    cases hs
  · simp [upsert1, hl]

theorem upsertAll_store (ps : List Posting) :
    ∀ st, (upsertAll st ps).1 = foldPut (fun p => p.job_id) st ps := by
  induction ps with
  | nil =>
    intro st
    rfl
  | cons p ps ih =>
    intro st
    simp only [upsertAll]
    rw [ih, upsert1_store, foldPut_cons]

theorem upsertAll_counts (ps : List Posting) :
    ∀ st, (∀ p ∈ ps, p.job_id ∈ keysOf st) →
      (upsertAll st ps).2.1 = 0 ∧ (upsertAll st ps).2.2 = ps.length := by
  induction ps with
  | nil =>
    intro st _
    exact ⟨rfl, rfl⟩
  | cons p ps ih =>
    intro st h
    have hm : p.job_id ∈ keysOf st := h p (List.mem_cons_self p ps)
    have hflag := upsert1_flag_of_mem st p hm
    have hkeys : keysOf (upsert1 st p).1 = keysOf st := by
      rw [upsert1_store]
      exact keysOf_setOrAppend_of_mem st p.job_id p hm
    have hrest := ih (upsert1 st p).1 (fun q hq => by
      rw [hkeys]
      exact h q (List.mem_cons_of_mem p hq))
    constructor
    · simp only [upsertAll, hflag, hrest.1]
      simp
    · simp only [upsertAll, hflag, hrest.2, List.length_cons]
      simp
      omega

theorem upsert_replay (store : List (Str × Posting)) (d : List Posting)
    (hnd : (keysOf store).Nodup) :
    (upsertAll (upsertAll store d).1 d).1 = (upsertAll store d).1 ∧
      (upsertAll (upsertAll store d).1 d).2.1 = 0 ∧
      (upsertAll (upsertAll store d).1 d).2.2 = d.length := by
  have h1 : (upsertAll store d).1 = foldPut (fun p => p.job_id) store d :=
    upsertAll_store d store
  have hmem : ∀ p ∈ d, p.job_id ∈ keysOf (upsertAll store d).1 := by
    intro p hp
    rw [h1]
    exact mem_keysOf_foldPut_of_mem (fun p => p.job_id) d store p hp
  have hcounts := upsertAll_counts d (upsertAll store d).1 hmem
  refine ⟨?_, hcounts.1, hcounts.2⟩
  rw [upsertAll_store d (upsertAll store d).1]
  have hkeys : keysOf (foldPut (fun p => p.job_id) (upsertAll store d).1 d) =
      keysOf (upsertAll store d).1 :=
    keysOf_foldPut_of_all_mem (fun p => p.job_id) d (upsertAll store d).1 hmem
  have hnd1 : (keysOf (upsertAll store d).1).Nodup := by
    rw [h1]
    exact nodup_keysOf_foldPut (fun p => p.job_id) d store hnd
  refine assoc_ext _ _ hkeys (hkeys ▸ hnd1) ?_
  intro k
  rw [lookupA_foldPut]
  rcases h : lastBy (fun p => p.job_id) d k with _ | p
  · simp only [h]
  · simp only [h]
    rw [h1, lookupA_foldPut, h]


theorem mem_setA (st : List (Str × Posting)) (k : Str) (v : Posting)
    (kv' : Str × Posting) (h : kv' ∈ setA st k v) : kv' ∈ st ∨ kv' = (k, v) := by
  rw [setA] at h
  rcases List.mem_map.mp h with ⟨x, hx, he⟩
  by_cases hk : x.1 = k
  · rw [if_pos hk] at he
    exact Or.inr he.symm
  · rw [if_neg hk] at he
    exact Or.inl (he ▸ hx)

theorem mem_setOrAppend (st : List (Str × Posting)) (k : Str) (v : Posting)
    (kv' : Str × Posting) (h : kv' ∈ setOrAppend st k v) :
    kv' ∈ st ∨ kv' = (k, v) := by
  rw [setOrAppend] at h
  by_cases hk : hasKey st k = true
  · rw [if_pos hk] at h
    exact mem_setA st k v kv' h
  · rw [if_neg hk] at h
    rcases List.mem_append.mp h with h | h
    · exact Or.inl h
    · exact Or.inr (List.mem_singleton.mp h)

theorem mem_foldPut (key : Posting → Str) (jobs : List Posting) :
    ∀ acc kv, kv ∈ foldPut key acc jobs →
      kv ∈ acc ∨ (kv.2 ∈ jobs ∧ kv.1 = key kv.2) := by
  induction jobs with
  | nil =>
    intro acc kv h
    exact Or.inl h
  | cons j js ih =>
    intro acc kv h
    rw [foldPut_cons] at h
    rcases ih _ kv h with h' | ⟨hm, hk⟩
    · rcases mem_setOrAppend acc (key j) j kv h' with h'' | h''
      · exact Or.inl h''
      · refine Or.inr ⟨?_, ?_⟩
        · rw [h'']
          exact List.mem_cons_self j js
        · rw [h'']
    · exact Or.inr ⟨List.mem_cons_of_mem j hm, hk⟩

theorem find?_eq_head?_filter {α : Type} (p : α → Bool) (l : List α) :
    l.find? p = (l.filter p).head? := by
  induction l with
  | nil => rfl
  | cons a l ih =>
    rw [List.find?_cons, List.filter_cons]
    cases h : p a
    · simp only [h, Bool.false_eq_true, if_false]
      exact ih
    · simp [h]

theorem lastBy_eq_getLast?_filter (key : Posting → Str) (jobs : List Posting)
    (k : Str) :
    lastBy key jobs k = (jobs.filter (fun p => decide (key p = k))).getLast? := by
  rw [lastBy, find?_eq_head?_filter, List.filter_reverse, List.head?_reverse]

theorem mem_keysOf_dedupe_iff (jobs : List Posting) (k : Str) :
    k ∈ keysOf (dedupe jobs) ↔ ∃ p ∈ jobs, dedupKey p = k := by
  constructor
  · intro hm
    have hs := (lookupA_isSome_iff (dedupe jobs) k).mpr hm
    rw [dedupe, lookupA_foldPut] at hs
    rcases hl : lastBy dedupKey jobs k with _ | p
    · rw [hl] at hs
      simp [lookupA] at hs
    · refine ⟨p, List.mem_reverse.mp (List.mem_of_find?_eq_some hl), ?_⟩
      have := List.find?_some hl
      exact of_decide_eq_true this
  · rintro ⟨p, hp, hk⟩
    rw [← hk, dedupe]
    exact mem_keysOf_foldPut_of_mem dedupKey jobs [] p hp

/-- Claim C3: deduplication keyed by the composite `source`/`external_id`
string produces exactly one entry per key (the key list has no duplicates,
and a key is present exactly when some input posting carries it); the entry
kept at a key is the last posting supplied with that key in iteration order;
and every kept entry is one of the supplied postings verbatim, keyed by its
own composite key — no merging of fields. -/
theorem dedupe_last_write_wins (jobs : List Posting) :
    (keysOf (dedupe jobs)).Nodup ∧
    (∀ k, lookupA (dedupe jobs) k =
      (jobs.filter (fun p => decide (dedupKey p = k))).getLast?) ∧
    (∀ kv, kv ∈ dedupe jobs → kv.2 ∈ jobs ∧ kv.1 = dedupKey kv.2) ∧
    (∀ k, k ∈ keysOf (dedupe jobs) ↔ ∃ p ∈ jobs, dedupKey p = k) := by
  refine ⟨?_, ?_, ?_, fun k => mem_keysOf_dedupe_iff jobs k⟩
  · exact nodup_keysOf_foldPut dedupKey jobs [] (by simp [keysOf])
  · intro k
    rw [dedupe, lookupA_foldPut, ← lastBy_eq_getLast?_filter]
    rcases lastBy dedupKey jobs k with _ | p <;> rfl
  · intro kv h
    rcases mem_foldPut dedupKey jobs [] kv h with h' | h'
    · cases h'
    · exact h'

/-- Two sample postings sharing the composite key `arbeitnow_x` but
differing in other fields. -/
def dedupeSampleA : Posting :=
  { job_id := ("arbeit_x").data
    external_id := ("x").data
    source := ("arbeitnow").data
    external_url := []
    job_title := ("Engineer A").data
    company_name := ("Acme").data
    company_id := ("comp_acme").data
    location := []
    state := ("Various").data
    wage_level := 2
    base_salary := 0
    prevailing_wage := 0
    job_description := []
    requirements := []
    benefits := []
    visa_sponsorship := true
    posted_date := []
    employment_type := ("Full-time").data
    lca_case_number := none
    is_external := true
    last_synced := ("T1").data }

/-- Second sample posting with the same composite key, later in order. -/
def dedupeSampleB : Posting :=
  { dedupeSampleA with
      job_title := ("Engineer B").data
      last_synced := ("T2").data }

/-- Witness for C3 at a concrete input: the kept entry for the shared key is
the later posting, taken verbatim. -/
theorem dedupe_last_write_wins_witness :
    (dedupeSampleB ∈ [dedupeSampleA, dedupeSampleB] ∧
      ("arbeitnow_x").data = dedupKey dedupeSampleB) ∧
    lookupA (dedupe [dedupeSampleA, dedupeSampleB]) (("arbeitnow_x").data) =
      ([dedupeSampleA, dedupeSampleB].filter
        (fun p => decide (dedupKey p = ("arbeitnow_x").data))).getLast? :=
  ⟨(dedupe_last_write_wins [dedupeSampleA, dedupeSampleB]).2.2.1
      ((("arbeitnow_x").data), dedupeSampleB) (by decide),
   (dedupe_last_write_wins [dedupeSampleA, dedupeSampleB]).2.1
      (("arbeitnow_x").data)⟩


/-- Claim C1: with byte-identical source responses, an unchanged
target-employer snapshot and a fixed ingestion clock, running the full sync
pass twice leaves the store exactly as after the first pass; on the second
pass no deduplicated posting takes the inserted branch and every one takes
the updated branch. -/
theorem sync_jobs_idempotent (S : List Str) (env : Env) (tr : Transports)
    (fromIso : Str → Option Str) (extractReq : Str → List Str) (now : Str)
    (store : List (Str × Posting)) (hS : S ≠ [])
    (hnd : (keysOf store).Nodup) :
    (sync_jobs S env tr fromIso extractReq now
        (sync_jobs S env tr fromIso extractReq now store).store).store =
      (sync_jobs S env tr fromIso extractReq now store).store ∧
    (sync_jobs S env tr fromIso extractReq now
        (sync_jobs S env tr fromIso extractReq now store).store).inserted = 0 ∧
    (sync_jobs S env tr fromIso extractReq now
        (sync_jobs S env tr fromIso extractReq now store).store).updated =
      (dedupe (pipelinePostings S env tr fromIso extractReq now)).length := by
  have hsync : ∀ st : List (Str × Posting),
      sync_jobs S env tr fromIso extractReq now st =
        { status := .completed,
          store := (upsertAll st
            ((dedupe (pipelinePostings S env tr fromIso extractReq now)).map
              (fun kv => kv.2))).1,
          inserted := (upsertAll st
            ((dedupe (pipelinePostings S env tr fromIso extractReq now)).map
              (fun kv => kv.2))).2.1,
          updated := (upsertAll st
            ((dedupe (pipelinePostings S env tr fromIso extractReq now)).map
              (fun kv => kv.2))).2.2,
          contacted := contactedSources env } := by
    intro st
    rw [sync_jobs, if_neg hS]
  set d := (dedupe (pipelinePostings S env tr fromIso extractReq now)).map
    (fun kv => kv.2) with hd
  have hlen : d.length =
      (dedupe (pipelinePostings S env tr fromIso extractReq now)).length := by
    rw [hd, List.length_map]
  have hrep := upsert_replay store d hnd
  rw [hsync store, hsync ((upsertAll store d).1)]
  exact ⟨hrep.1, hrep.2.1, hlen ▸ hrep.2.2⟩

/-- Concrete sync scenario for witnesses: one target employer, one
Arbeitnow posting, all other transports failing, no credentials. -/
def c1S : List Str := [("acme").data]

/-- Credential environment with every key absent. -/
def c1Env : Env :=
  { jsearch_api_key := none, adzuna_app_id := none, adzuna_app_key := none,
    usajobs_api_key := none }

/-- One raw Arbeitnow job from the target employer. -/
def c1Job : ArbeitnowJob :=
  { company_name := ("Acme").data, slug := ("x1").data, url := ("u").data,
    title := ("Dev").data, description := ("d").data, location := none,
    job_types := none, created_at := .pyNone }

/-- Transports: Arbeitnow returns one job, everything else fails. -/
def c1Tr : Transports :=
  { arbeitnow := .ok [c1Job],
    jsearch := fun _ => .exn,
    adzuna := fun _ => .exn,
    usajobs := .exn,
    greenhouse := fun _ => .httpError 500 }

/-- Date parser used in concrete scenarios (always fails over). -/
def c1Iso : Str → Option Str := fun _ => none

/-- Requirement extractor used in concrete scenarios. -/
def c1Req : Str → List Str := fun _ => []

/-- Fixed ingestion clock used in concrete scenarios. -/
def c1Now : Str := ("2024-01-01T00:00:00+00:00").data

/-- Witness for C1: the double-pass property evaluated on the concrete
scenario, with both hypotheses discharged there. -/
theorem sync_jobs_idempotent_witness :
    (c1S ≠ [] ∧ (keysOf ([] : List (Str × Posting))).Nodup) ∧
    ((sync_jobs c1S c1Env c1Tr c1Iso c1Req c1Now
        (sync_jobs c1S c1Env c1Tr c1Iso c1Req c1Now []).store).store =
      (sync_jobs c1S c1Env c1Tr c1Iso c1Req c1Now []).store ∧
    (sync_jobs c1S c1Env c1Tr c1Iso c1Req c1Now
        (sync_jobs c1S c1Env c1Tr c1Iso c1Req c1Now []).store).inserted = 0 ∧
    (sync_jobs c1S c1Env c1Tr c1Iso c1Req c1Now
        (sync_jobs c1S c1Env c1Tr c1Iso c1Req c1Now []).store).updated =
      (dedupe (pipelinePostings c1S c1Env c1Tr c1Iso c1Req c1Now)).length) :=
  ⟨⟨by decide, by simp [keysOf]⟩,
   sync_jobs_idempotent c1S c1Env c1Tr c1Iso c1Req c1Now []
     (by decide) (by simp [keysOf])⟩

/-- Claim C6: with an empty target-employer snapshot the sync pass returns
early: no Source Connector is contacted, the store is untouched, no counter
moves, and the outcome is the skipped report, which is distinct from a
normal completion. -/
theorem sync_skips_on_empty_targets (env : Env) (tr : Transports)
    (fromIso : Str → Option Str) (extractReq : Str → List Str) (now : Str)
    (store : List (Str × Posting)) :
    sync_jobs [] env tr fromIso extractReq now store =
      { status := .skipped, store := store, inserted := 0, updated := 0,
        contacted := [] } ∧
    SyncOutcome.skipped ≠ SyncOutcome.completed :=
  ⟨rfl, by decide⟩

/-- A healthy Greenhouse job on the `stripe` board, used in the
partial-failure scenario. -/
def c7Gh : GreenhouseJob :=
  { board_token := [], id := ("42").data, absolute_url := ("a").data,
    title := ("Backend Engineer").data,
    location := .locDict (some (("New York, NY").data)),
    content := .cdict (("desc").data), updated_at := .pyNone }

/-- Target snapshot for the partial-failure scenario. -/
def c7S : List Str := [("stripe").data]

/-- Transports for the partial-failure scenario: Arbeitnow raises, the
`stripe` Greenhouse board returns one valid job, everything else fails. -/
def c7Tr : Transports :=
  { arbeitnow := .exn,
    jsearch := fun _ => .exn,
    adzuna := fun _ => .exn,
    usajobs := .exn,
    greenhouse := fun t =>
      if t = ("stripe").data then .ok [c7Gh] else .httpError 404 }

/-- Counterexample to C7 as stated: in the partial-failure scenario the pass
does complete without crashing, the failed source counts 0 and the healthy
source's posting is ingested, but the reported status is the constant
`active` — there is no `completed_with_errors` status anywhere in the code. -/
theorem no_completed_with_errors_status :
    (sync_jobs c7S c1Env c7Tr c1Iso c1Req c1Now []).status = .completed ∧
    countSource (sync_jobs c7S c1Env c7Tr c1Iso c1Req c1Now []).store
      (("arbeitnow").data) = 0 ∧
    countSource (sync_jobs c7S c1Env c7Tr c1Iso c1Req c1Now []).store
      (("greenhouse").data) = 1 ∧
    (get_sync_status (sync_jobs c7S c1Env c7Tr c1Iso c1Req c1Now []).store).status
      = ("active").data ∧
    (get_sync_status (sync_jobs c7S c1Env c7Tr c1Iso c1Req c1Now []).store).status
      ≠ ("completed_with_errors").data := by
  refine ⟨rfl, rfl, rfl, rfl, ?_⟩
  decide

/-- Amended C7: whenever the Arbeitnow transport fails entirely (exception
or non-200) while the Greenhouse `stripe` board returns one valid posting
for a target employer, the pass still completes without crashing, the failed
source contributes 0 store documents, the healthy posting is ingested, and
the reported status is the same constant `active` as for a normal completion
(no distinct `completed_with_errors` value exists). -/
theorem sync_partial_failure_amended (fromIso : Str → Option Str)
    (extractReq : Str → List Str) (now : Str) (ra : SourceResp ArbeitnowJob)
    (hra : ra = .exn ∨ ∃ c, ra = .httpError c) :
    (sync_jobs c7S c1Env
        { arbeitnow := ra, jsearch := fun _ => .exn, adzuna := fun _ => .exn,
          usajobs := .exn,
          greenhouse := fun t =>
            if t = ("stripe").data then .ok [c7Gh] else .httpError 404 }
        fromIso extractReq now []).status = .completed ∧
    countSource (sync_jobs c7S c1Env
        { arbeitnow := ra, jsearch := fun _ => .exn, adzuna := fun _ => .exn,
          usajobs := .exn,
          greenhouse := fun t =>
            if t = ("stripe").data then .ok [c7Gh] else .httpError 404 }
        fromIso extractReq now []).store (("arbeitnow").data) = 0 ∧
    countSource (sync_jobs c7S c1Env
        { arbeitnow := ra, jsearch := fun _ => .exn, adzuna := fun _ => .exn,
          usajobs := .exn,
          greenhouse := fun t =>
            if t = ("stripe").data then .ok [c7Gh] else .httpError 404 }
        fromIso extractReq now []).store (("greenhouse").data) = 1 ∧
    (get_sync_status (sync_jobs c7S c1Env
        { arbeitnow := ra, jsearch := fun _ => .exn, adzuna := fun _ => .exn,
          usajobs := .exn,
          greenhouse := fun t =>
            if t = ("stripe").data then .ok [c7Gh] else .httpError 404 }
        fromIso extractReq now []).store).status = ("active").data := by
  rcases hra with h | ⟨c, h⟩ <;> subst h
  · exact ⟨rfl, rfl, rfl, rfl⟩
  · exact ⟨rfl, rfl, rfl, rfl⟩

/-- Witness for the amended C7 at the concrete failing transport. -/
theorem sync_partial_failure_amended_witness :
    ((SourceResp.exn : SourceResp ArbeitnowJob) = .exn ∨
      ∃ c, (SourceResp.exn : SourceResp ArbeitnowJob) = .httpError c) ∧
    (sync_jobs c7S c1Env
        { arbeitnow := .exn, jsearch := fun _ => .exn, adzuna := fun _ => .exn,
          usajobs := .exn,
          greenhouse := fun t =>
            if t = ("stripe").data then .ok [c7Gh] else .httpError 404 }
        c1Iso c1Req c1Now []).status = .completed :=
  ⟨Or.inl rfl,
   (sync_partial_failure_amended c1Iso c1Req c1Now .exn (Or.inl rfl)).1⟩


/-- A raw USAJOBS item whose organization is in no target set. -/
def c4Usa : UsaItem :=
  { MatchedObjectDescriptor :=
    { OrganizationName := ("Nobody Known").data, PositionID := ("7").data,
      PositionURI := [], PositionTitle := [], PositionLocation := [],
      PositionRemuneration := [], PositionSchedule := [], JobSummary := [],
      QualificationSummary := [], PublicationStartDate := .pyNone } }

/-- Counterexample to C4 as stated: the USAJOBS normalizer produces a
Posting for an organization that the Identity Matcher rejects (here the
target set is empty, so nothing is a target employer). -/
theorem usajobs_normalizer_skips_filter :
    is_h1b_sponsor (("Nobody Known").data) [] = false ∧
    (normalize_usajobs_job c4Usa [] c1Iso c1Req c1Now).isSome = true := by
  exact ⟨by decide, rfl⟩

/-- Amended C4: the Arbeitnow, Greenhouse, JSearch and Adzuna normalizers
apply the Identity Matcher to their organization-name field and return
`none` whenever it is not a target employer; the USAJOBS normalizer applies
no such gate — its output does not depend on the target set at all. -/
theorem normalizers_filter_amended (S : List Str) (fromIso : Str → Option Str)
    (extractReq : Str → List Str) (now : Str) :
    (∀ j : ArbeitnowJob, is_h1b_sponsor j.company_name S = false →
      normalize_arbeitnow_job j S fromIso extractReq now = none) ∧
    (∀ j : GreenhouseJob, is_h1b_sponsor (ghCompanyName j.board_token) S = false →
      normalize_greenhouse_job j S fromIso extractReq now = none) ∧
    (∀ j : JsearchJob, is_h1b_sponsor j.employer_name S = false →
      normalize_jsearch_job j S fromIso extractReq now = none) ∧
    (∀ j : AdzunaJob, is_h1b_sponsor j.company_display_name S = false →
      normalize_adzuna_job j S fromIso extractReq now = none) ∧
    (∀ (item : UsaItem) (S' : List Str),
      normalize_usajobs_job item S fromIso extractReq now =
        normalize_usajobs_job item S' fromIso extractReq now) := by
  refine ⟨?_, ?_, ?_, ?_, fun item S' => rfl⟩
  · intro j h
    simp [normalize_arbeitnow_job, h]
  · intro j h
    simp [normalize_greenhouse_job, h]
  · intro j h
    simp [normalize_jsearch_job, h]
  · intro j h
    simp [normalize_adzuna_job, h]

/-- An Arbeitnow job from a non-target organization. -/
def c4Arb : ArbeitnowJob :=
  { c1Job with company_name := ("Nobody Known").data }

/-- Witness for the amended C4: a filtering normalizer really drops a
non-target record. -/
theorem normalizers_filter_amended_witness :
    is_h1b_sponsor c4Arb.company_name [] = false ∧
    normalize_arbeitnow_job c4Arb [] c1Iso c1Req c1Now = none :=
  ⟨by decide,
   (normalizers_filter_amended [] c1Iso c1Req c1Now).1 c4Arb (by decide)⟩

/-- Counterexample to C5 as stated: the produced Arbeitnow posting is
upserted under its `job_id`, which is `arbeit_` + external id, not the
composite `source` + underscore + external id string (that string is only
the dedup key). -/
theorem upsert_key_differs_from_composite :
    (normalize_arbeitnow_job c1Job c1S c1Iso c1Req c1Now).map
        (fun p => p.job_id) = some (("arbeit_x1").data) ∧
    (normalize_arbeitnow_job c1Job c1S c1Iso c1Req c1Now).map
        (fun p => dedupKey p) = some (("arbeitnow_x1").data) ∧
    ("arbeit_x1").data ≠ ("arbeitnow_x1").data := by
  refine ⟨rfl, rfl, by decide⟩

/-- Amended C5: the dedup key of every Posting is the composite
`source` + underscore + external id; the store upsert key is the Posting's
`job_id`, which each source builds as a fixed short prefix (`arbeit_`,
`gh_`, `usa_`, `js_`, `adz_`) plus the external id — deterministic in
`(source, external_id)`, hence stable across passes, but distinct from the
composite dedup key. -/
theorem posting_key_shapes (S : List Str) (fromIso : Str → Option Str)
    (extractReq : Str → List Str) (now : Str) :
    (∀ p : Posting, dedupKey p = p.source ++ '_' :: p.external_id) ∧
    (∀ st p, (upsert1 st p).1 = setOrAppend st p.job_id p) ∧
    (∀ (j : ArbeitnowJob) (p : Posting),
      normalize_arbeitnow_job j S fromIso extractReq now = some p →
      p.source = ("arbeitnow").data ∧ p.external_id = j.slug ∧
        p.job_id = ("arbeit_").data ++ p.external_id) ∧
    (∀ (j : GreenhouseJob) (p : Posting),
      normalize_greenhouse_job j S fromIso extractReq now = some p →
      p.source = ("greenhouse").data ∧ p.external_id = j.id ∧
        p.job_id = ("gh_").data ++ p.external_id) ∧
    (∀ (item : UsaItem) (p : Posting),
      normalize_usajobs_job item S fromIso extractReq now = some p →
      p.source = ("usajobs").data ∧
        p.external_id = item.MatchedObjectDescriptor.PositionID ∧
        p.job_id = ("usa_").data ++ p.external_id) ∧
    (∀ (j : JsearchJob) (p : Posting),
      normalize_jsearch_job j S fromIso extractReq now = some p →
      p.source = ("jsearch").data ∧ p.external_id = j.job_id ∧
        p.job_id = ("js_").data ++ p.external_id) ∧
    (∀ (j : AdzunaJob) (p : Posting),
      normalize_adzuna_job j S fromIso extractReq now = some p →
      p.source = ("adzuna").data ∧ p.external_id = j.id ∧
        p.job_id = ("adz_").data ++ p.external_id) := by
  refine ⟨fun p => rfl, fun st p => upsert1_store st p, ?_, ?_, ?_, ?_, ?_⟩
  · intro j p h
    rw [normalize_arbeitnow_job] at h
    split at h
    · cases h
    · cases Option.some_inj.mp h
      exact ⟨rfl, rfl, rfl⟩
  · intro j p h
    rw [normalize_greenhouse_job] at h
    split at h
    · cases h
    · cases Option.some_inj.mp h
      exact ⟨rfl, rfl, rfl⟩
  · intro item p h
    rw [normalize_usajobs_job] at h
    cases Option.some_inj.mp h
    exact ⟨rfl, rfl, rfl⟩
  · intro j p h
    rw [normalize_jsearch_job] at h
    split at h
    · cases h
    · cases Option.some_inj.mp h
      exact ⟨rfl, rfl, rfl⟩
  · intro j p h
    rw [normalize_adzuna_job] at h
    split at h
    · cases h
    · cases Option.some_inj.mp h
      exact ⟨rfl, rfl, rfl⟩

/-- The Posting the concrete Arbeitnow scenario produces. -/
def c5P : Posting :=
  { job_id := ("arbeit_x1").data
    external_id := ("x1").data
    source := ("arbeitnow").data
    external_url := ("u").data
    job_title := ("Dev").data
    company_name := ("Acme").data
    company_id := ("comp_acme").data
    location := ("Remote").data
    state := ("Remote").data
    wage_level := 2
    base_salary := 0
    prevailing_wage := 0
    job_description := ("d").data
    requirements := []
    benefits := []
    visa_sponsorship := true
    posted_date := c1Now
    employment_type := ("Full-time").data
    lca_case_number := none
    is_external := true
    last_synced := c1Now }

/-- Witness for the amended C5 at the concrete Arbeitnow posting. -/
theorem posting_key_shapes_witness :
    c5P.source = ("arbeitnow").data ∧ c5P.external_id = c1Job.slug ∧
      c5P.job_id = ("arbeit_").data ++ c5P.external_id :=
  (posting_key_shapes c1S c1Iso c1Req c1Now).2.2.1 c1Job c5P (by decide)

/-- The third matcher check exactly as the claim words it: only the
candidate needs length at least 4 (the code also requires the normalized
raw name to have length at least 4). Written from the claim for
comparison, not from the source. -/
def claimedFuzzyCheck (rawName : Str) (targetSet : List Str) : Bool :=
  targetSet.any (fun cand =>
    decide (4 ≤ cand.length) &&
      (isSubstrOf (normalize_company_name rawName) cand ||
       isSubstrOf cand (normalize_company_name rawName)) &&
      ratioOk (normalize_company_name rawName).length cand.length)

/-- The full matcher description as the claim states it. Written from the
claim for comparison, not from the source. -/
def claimedMatcherSpec (rawName : Str) (targetSet : List Str) : Bool :=
  decide (rawName ≠ []) &&
    (memB (normalize_company_name rawName) targetSet ||
     memB (pyStrip (rawName.map lowerChar)) targetSet ||
     claimedFuzzyCheck rawName targetSet)

/-- Counterexample to C2 as stated: for raw name `abc` against stored
candidate `abcd`, the claim's three checks succeed (candidate length 4,
containment, ratio 3/4), but the code returns false because it also
requires the normalized raw name to have length at least 4. -/
theorem matcher_differs_from_claimed_spec :
    is_h1b_sponsor (("abc").data) [("abcd").data] = false ∧
    claimedMatcherSpec (("abc").data) [("abcd").data] = true := by
  exact ⟨by decide, by decide⟩

/-- Amended C2: the matcher returns true exactly when the raw name is
nonempty and one of the three checks succeeds, where the fuzzy check
requires BOTH the normalized raw name and the candidate to have length at
least 4 (plus containment and the 0.7 ratio); any nonempty name whose
lowered-trimmed form is in the target set matches; `Google` matches a
stored `Google LLC` snapshot; `Goo` does not match `Google`; the empty
name never matches. -/
theorem is_h1b_sponsor_amended :
    (∀ (name : Str) (S : List Str),
      is_h1b_sponsor name S =
        (decide (name ≠ []) &&
          (memB (normalize_company_name name) S ||
           memB (pyStrip (name.map lowerChar)) S ||
           S.any (fun cand => fuzzyMatch (normalize_company_name name) cand)))) ∧
    (∀ (X : Str) (S : List Str), X ≠ [] →
      memB (pyStrip (X.map lowerChar)) S = true → is_h1b_sponsor X S = true) ∧
    is_h1b_sponsor (("Google").data) [("google llc").data, ("google").data] = true ∧
    is_h1b_sponsor (("Goo").data) [("google").data] = false ∧
    (∀ S : List Str, is_h1b_sponsor [] S = false) := by
  refine ⟨?_, ?_, by decide, by decide, fun S => rfl⟩
  · intro name S
    by_cases h0 : name = []
    · subst h0
      simp [is_h1b_sponsor]
    · rw [is_h1b_sponsor, if_neg h0]
      have hd : decide (name ≠ []) = true := by simp [h0]
      rw [hd, Bool.true_and]
      by_cases h1 : memB (normalize_company_name name) S = true
      · simp [h1]
      · rw [if_neg h1]
        by_cases h2 : memB (pyStrip (name.map lowerChar)) S = true
        · simp [h1, h2]
        · simp [h1, h2]
  · intro X S hne hmem
    rw [is_h1b_sponsor, if_neg hne]
    by_cases h1 : memB (normalize_company_name X) S = true
    · rw [if_pos h1]
    · rw [if_neg h1, if_pos hmem]

/-- Witness for the amended C2: a name whose lowered form is stored
matches. -/
theorem is_h1b_sponsor_amended_witness :
    (("Acme").data ≠ [] ∧
      memB (pyStrip ((("Acme").data).map lowerChar)) [("acme").data] = true) ∧
    is_h1b_sponsor (("Acme").data) [("acme").data] = true :=
  ⟨⟨by decide, by decide⟩,
   is_h1b_sponsor_amended.2.1 (("Acme").data) [("acme").data]
     (by decide) (by decide)⟩

/-- A two-letter code appearing as a whole whitespace-delimited token of the
uppercased location string — the claim's wording. Written from the claim
for comparison, not from the source. -/
def wholeTokenSpec (code loc : Str) : Bool :=
  memB code (pyWords (loc.map upperChar))

/-- Counterexample to C9 as stated: `America` yields `CA` (the uppercased
string ends with `CA`), although `CA` is not a whole token of it. -/
theorem extract_state_not_whole_token :
    extract_state (("America").data) = ("CA").data ∧
    wholeTokenSpec (("CA").data) (("America").data) = false := by
  exact ⟨by decide, by decide⟩

/-- Amended C9: the extractor returns a region code exactly when the code
occurs in the uppercased string immediately after a space (or at the
start), or as a suffix of the string — not only as a whole token; with no
such code it returns `Remote` when a remote keyword occurs and `Various`
otherwise; the empty location yields `Remote`; the claim's three examples
hold. -/
theorem extract_state_amended :
    (∀ loc st, st ∈ usStates → extract_state loc = st →
      stateMatches (loc.map upperChar) st = true) ∧
    (∀ loc, loc ≠ [] →
      (∀ st ∈ usStates, stateMatches (loc.map upperChar) st = false) →
      extract_state loc =
        (if isSubstrOf (("remote").data) (loc.map lowerChar) then ("Remote").data
         else ("Various").data)) ∧
    extract_state [] = ("Remote").data ∧
    extract_state (("Austin, TX").data) = ("TX").data ∧
    extract_state (("Remote").data) = ("Remote").data ∧
    extract_state (("Somewhere").data) = ("Various").data := by
  refine ⟨?_, ?_, rfl, by decide, by decide, by decide⟩
  · intro loc st hmem he
    by_cases hl : loc = []
    · subst hl
      have he2 : ("Remote").data = st := he
      rw [← he2] at hmem
      exact absurd hmem (by decide)
    · rw [extract_state, if_neg hl] at he
      rcases hf : usStates.find? (fun s => stateMatches (loc.map upperChar) s)
        with _ | st'
      · rw [hf] at he
        have he2 : (if isSubstrOf (("remote").data) (loc.map lowerChar) = true
            then ("Remote").data else ("Various").data) = st := he
        by_cases hr : isSubstrOf (("remote").data) (loc.map lowerChar) = true
        · rw [if_pos hr] at he2
          rw [← he2] at hmem
          exact absurd hmem (by decide)
        · rw [if_neg hr] at he2
          rw [← he2] at hmem
          exact absurd hmem (by decide)
      · rw [hf] at he
        have hp := List.find?_some hf
        rw [← he]
        exact hp
  · intro loc hne hall
    rw [extract_state, if_neg hne]
    have hf : usStates.find? (fun s => stateMatches (loc.map upperChar) s) = none := by
      rw [List.find?_eq_none]
      intro st hst
      rw [hall st hst]
      simp
    rw [hf]

/-- Witness for the amended C9: no code matches `Somewhere`, so the
keyword fallback decides. -/
theorem extract_state_amended_witness :
    (("Somewhere").data ≠ [] ∧
      (∀ st ∈ usStates,
        stateMatches ((("Somewhere").data).map upperChar) st = false)) ∧
    extract_state (("Somewhere").data) =
      (if isSubstrOf (("remote").data) ((("Somewhere").data).map lowerChar)
       then ("Remote").data else ("Various").data) :=
  ⟨⟨by decide, by decide⟩,
   extract_state_amended.2.1 (("Somewhere").data) (by decide) (by decide)⟩

/-- Claim C10: `parse_date` is total — every input yields a timestamp
string: falsy inputs and non-string inputs yield the ingestion time `now`;
a string whose Z-rewritten form the ISO parser accepts yields the parsed
timestamp's ISO form; a string the parser rejects yields `now`; and a
trailing `Z` is rewritten to `+00:00` before parsing. -/
theorem parse_date_total_spec (fromIso : Str → Option Str) (now : Str) :
    (∀ v, pyTruthy v = false → parse_date fromIso now v = now) ∧
    (∀ b, parse_date fromIso now (.pyOther b) = now) ∧
    (∀ s t, s ≠ [] → fromIso (replaceZ s) = some t →
      parse_date fromIso now (.pyStr s) = t) ∧
    (∀ s, fromIso (replaceZ s) = none → parse_date fromIso now (.pyStr s) = now) ∧
    (∀ s, replaceZ (s ++ ['Z']) = replaceZ s ++ ("+00:00").data) := by
  refine ⟨?_, ?_, ?_, ?_, ?_⟩
  · intro v hv
    cases v with
    | pyNone => rfl
    | pyStr s =>
      have hs : s = [] := by
        by_cases h : s = []
        · exact h
        · simp [pyTruthy, h] at hv
      subst hs
      rfl
    | pyOther b =>
      cases b
      · rfl
      · simp [pyTruthy] at hv
  · intro b
    cases b <;> rfl
  · intro s t hs hp
    have ht : pyTruthy (.pyStr s) = true := by simp [pyTruthy, hs]
    rw [parse_date, if_pos ht]
    simp only [hp]
  · intro s hp
    by_cases hs : s = []
    · subst hs
      rfl
    · have ht : pyTruthy (.pyStr s) = true := by simp [pyTruthy, hs]
      rw [parse_date, if_pos ht]
      simp only [hp]
  · intro s
    induction s with
    | nil => rfl
    | cons c cs ih =>
      simp only [replaceZ, List.cons_append, List.foldr_cons] at *
      rw [ih]
      split <;> simp

/-- A concrete ISO parser accepting exactly one rewritten timestamp. -/
def c10Iso : Str → Option Str :=
  fun l =>
    if l = ("2024-01-01T00:00:00+00:00").data then some (("OK").data) else none

/-- Witness for C10: a trailing-Z string is accepted after rewriting and
returns the parser's output. -/
theorem parse_date_total_spec_witness :
    ((("2024-01-01T00:00:00Z").data ≠ []) ∧
      c10Iso (replaceZ (("2024-01-01T00:00:00Z").data)) = some (("OK").data)) ∧
    parse_date c10Iso (("NOW").data) (.pyStr (("2024-01-01T00:00:00Z").data)) =
      ("OK").data :=
  ⟨⟨by decide, by decide⟩,
   (parse_date_total_spec c10Iso (("NOW").data)).2.2.1
     (("2024-01-01T00:00:00Z").data) (("OK").data) (by decide) (by decide)⟩


theorem toNat_ofNat_valid (n : Nat) (hv : n.isValidChar) :
    (Char.ofNat n).toNat = n := by
  rw [Char.ofNat, dif_pos hv]
  rfl

theorem lowerChar_idem (c : Char) : lowerChar (lowerChar c) = lowerChar c := by
  unfold lowerChar
  split
  · next h =>
    have hv : (c.toNat + 32).isValidChar := by
      left
      omega
    have := toNat_ofNat_valid (c.toNat + 32) hv
    rw [if_neg]
    omega
  · rfl

/-- A character that can appear in the output of the normalizer: fixed by
lowercasing and none of the punctuation the normalizer removes. -/
def goodChar (c : Char) : Prop :=
  lowerChar c = c ∧ c ≠ ',' ∧ c ≠ '.' ∧ c ≠ '-'

theorem goodChar_space : goodChar ' ' := by
  refine ⟨rfl, by decide, by decide, by decide⟩

theorem mem_pyStrip (l : Str) (c : Char) (h : c ∈ pyStrip l) : c ∈ l := by
  rw [pyStrip] at h
  rw [List.mem_reverse] at h
  have h2 := (List.dropWhile_sublist isWs).mem h
  rw [List.mem_reverse] at h2
  exact (List.dropWhile_sublist isWs).mem h2

theorem mem_stripOneSuffix (n suf : Str) (c : Char) (h : c ∈ stripOneSuffix n suf) :
    c ∈ n := by
  rw [stripOneSuffix] at h
  by_cases hs : suf.isSuffixOf n = true
  · rw [if_pos hs] at h
    exact List.mem_of_mem_take (mem_pyStrip _ c h)
  · rw [if_neg hs] at h
    exact h

theorem mem_foldl_stripOneSuffix (L : List Str) :
    ∀ n c, c ∈ L.foldl stripOneSuffix n → c ∈ n := by
  induction L with
  | nil =>
    intro n c h
    exact h
  | cons suf L ih =>
    intro n c h
    rw [List.foldl_cons] at h
    exact mem_stripOneSuffix n suf c (ih _ c h)

theorem mem_stripSuffixes (n : Str) (c : Char) (h : c ∈ stripSuffixes n) : c ∈ n :=
  mem_foldl_stripOneSuffix pySuffixes n c h

theorem mem_removePunct (m : Str) (c : Char) (h : c ∈ removePunct m)
    (hm : ∀ c' ∈ m, lowerChar c' = c') : goodChar c := by
  rw [removePunct] at h
  rcases List.mem_map.mp h with ⟨a, ha, he⟩
  have ha2 := List.mem_of_mem_filter ha
  have hdot : a ≠ '.' := by
    have := List.of_mem_filter ha
    simpa using this
  have hcomma : a ≠ ',' := by
    have := List.of_mem_filter ha2
    simpa using this
  have hmem : a ∈ m := List.mem_of_mem_filter ha2
  by_cases hd : a = '-'
  · rw [hd] at he
    simp only [if_pos rfl] at he
    rw [← he]
    exact goodChar_space
  · rw [if_neg hd] at he
    rw [← he]
    exact ⟨hm a hmem, hcomma, hdot, hd⟩

theorem mem_wordsAux (l : Str) :
    ∀ acc w, w ∈ wordsAux l acc → ∀ c ∈ w, c ∈ l ∨ c ∈ acc := by
  induction l with
  | nil =>
    intro acc w hw c hc
    rw [wordsAux] at hw
    by_cases ha : acc = []
    · rw [if_pos ha] at hw
      cases hw
    · rw [if_neg ha] at hw
      rcases List.mem_singleton.mp hw with h
      rw [h] at hc
      exact Or.inr (List.mem_reverse.mp hc)
  | cons x xs ih =>
    intro acc w hw c hc
    rw [wordsAux] at hw
    by_cases hx : isWs x = true
    · rw [if_pos hx] at hw
      by_cases ha : acc = []
      · rw [if_pos ha] at hw
        rcases ih [] w hw c hc with h | h
        · exact Or.inl (List.mem_cons_of_mem x h)
        · cases h
      · rw [if_neg ha] at hw
        rcases List.mem_cons.mp hw with h | h
        · rw [h] at hc
          exact Or.inr (List.mem_reverse.mp hc)
        · rcases ih [] w h c hc with h2 | h2
          · exact Or.inl (List.mem_cons_of_mem x h2)
          · cases h2
    · rw [if_neg hx] at hw
      rcases ih (x :: acc) w hw c hc with h | h
      · exact Or.inl (List.mem_cons_of_mem x h)
      · rcases List.mem_cons.mp h with h2 | h2
        · rw [h2]
          exact Or.inl (List.mem_cons_self x xs)
        · exact Or.inr h2

theorem mem_joinSp (ws : List Str) (c : Char) (h : c ∈ joinSp ws) :
    c = ' ' ∨ ∃ w ∈ ws, c ∈ w := by
  induction ws with
  | nil => cases h
  | cons w tail ih =>
    cases tail with
    | nil =>
      exact Or.inr ⟨w, List.mem_singleton.mpr rfl, h⟩
    | cons w' ws' =>
      have hj : joinSp (w :: w' :: ws') = w ++ ' ' :: joinSp (w' :: ws') := rfl
      rw [hj] at h
      rcases List.mem_append.mp h with h2 | h2
      · exact Or.inr ⟨w, List.mem_cons_self _ _, h2⟩
      · rcases List.mem_cons.mp h2 with h3 | h3
        · exact Or.inl h3
        · rcases ih h3 with h4 | ⟨w2, hw2, hc2⟩
          · exact Or.inl h4
          · exact Or.inr ⟨w2, List.mem_cons_of_mem w hw2, hc2⟩

theorem mem_collapseWs (x : Str) (c : Char) (h : c ∈ collapseWs x) :
    c = ' ' ∨ c ∈ x := by
  rw [collapseWs] at h
  rcases mem_joinSp _ c h with h | ⟨w, hw, hcw⟩
  · exact Or.inl h
  · rcases mem_wordsAux x [] w hw c hcw with h2 | h2
    · exact Or.inr h2
    · cases h2

theorem goodChar_normalize (s : Str) : ∀ c ∈ normalize_company_name s, goodChar c := by
  intro c hc
  by_cases hs : s = []
  · rw [normalize_company_name, if_pos hs] at hc
    cases hc
  · rw [normalize_company_name, if_neg hs] at hc
    rcases mem_collapseWs _ c hc with h | h
    · rw [h]
      exact goodChar_space
    · refine mem_removePunct _ c h ?_
      intro c' hc'
      have hmm := mem_pyStrip _ c' (mem_stripSuffixes _ c' hc')
      rcases List.mem_map.mp hmm with ⟨a, _, he⟩
      rw [← he]
      exact lowerChar_idem a

theorem map_eq_self_of_fixed (f : Char → Char) (l : Str)
    (h : ∀ c ∈ l, f c = c) : l.map f = l := by
  induction l with
  | nil => rfl
  | cons a t ih =>
    rw [List.map_cons, h a (List.mem_cons_self a t),
      ih (fun c hc => h c (List.mem_cons_of_mem a hc))]

theorem removePunct_eq_self (n : Str) (h : ∀ c ∈ n, goodChar c) :
    removePunct n = n := by
  rw [removePunct]
  have h1 : n.filter (fun c => decide (c ≠ ',')) = n :=
    List.filter_eq_self.mpr (fun a ha => by simp [(h a ha).2.1])
  rw [h1]
  have h2 : n.filter (fun c => decide (c ≠ '.')) = n :=
    List.filter_eq_self.mpr (fun a ha => by simp [(h a ha).2.2.1])
  rw [h2]
  exact map_eq_self_of_fixed _ n (fun c hc => by rw [if_neg (h c hc).2.2.2])

theorem foldl_stripOne_id (L : List Str) :
    ∀ n, (∀ suf ∈ L, suf.isSuffixOf n = false) → L.foldl stripOneSuffix n = n := by
  induction L with
  | nil =>
    intro n _
    rfl
  | cons suf L ih =>
    intro n h
    rw [List.foldl_cons, stripOneSuffix,
      if_neg (by rw [h suf (List.mem_cons_self suf L)]; simp)]
    exact ih n (fun s hs => h s (List.mem_cons_of_mem suf hs))

theorem stripSuffixes_eq_self (n : Str)
    (h : ∀ suf ∈ pySuffixes, suf.isSuffixOf n = false) : stripSuffixes n = n :=
  foldl_stripOne_id pySuffixes n h

theorem wordsAux_wf (l : Str) :
    ∀ acc, (∀ c ∈ acc, isWs c = false) →
      ∀ w ∈ wordsAux l acc, w ≠ [] ∧ ∀ c ∈ w, isWs c = false := by
  induction l with
  | nil =>
    intro acc hacc w hw
    rw [wordsAux] at hw
    by_cases ha : acc = []
    · rw [if_pos ha] at hw
      cases hw
    · rw [if_neg ha] at hw
      rw [List.mem_singleton.mp hw]
      refine ⟨by simp [ha], fun c hc => hacc c (List.mem_reverse.mp hc)⟩
  | cons x xs ih =>
    intro acc hacc w hw
    rw [wordsAux] at hw
    by_cases hx : isWs x = true
    · rw [if_pos hx] at hw
      by_cases ha : acc = []
      · rw [if_pos ha] at hw
        exact ih [] (fun c hc => absurd hc (List.not_mem_nil c)) w hw
      · rw [if_neg ha] at hw
        rcases List.mem_cons.mp hw with h | h
        · rw [h]
          refine ⟨by simp [ha], fun c hc => hacc c (List.mem_reverse.mp hc)⟩
        · exact ih [] (fun c hc => absurd hc (List.not_mem_nil c)) w h
    · rw [if_neg hx] at hw
      refine ih (x :: acc) ?_ w hw
      intro c hc
      rcases List.mem_cons.mp hc with h | h
      · rw [h]
        exact (Bool.not_eq_true _).mp hx
      · exact hacc c h

theorem pyWords_wf (l : Str) :
    ∀ w ∈ pyWords l, w ≠ [] ∧ ∀ c ∈ w, isWs c = false :=
  wordsAux_wf l [] (fun c hc => absurd hc (List.not_mem_nil c))

theorem wordsAux_consume (w : Str) :
    ∀ rest acc, (∀ c ∈ w, isWs c = false) →
      wordsAux (w ++ rest) acc = wordsAux rest (w.reverse ++ acc) := by
  induction w with
  | nil =>
    intro rest acc _
    simp
  | cons c w' ih =>
    intro rest acc h
    have hc : isWs c = false := h c (List.mem_cons_self c w')
    rw [List.cons_append, wordsAux, if_neg (by rw [hc]; simp),
      ih rest (c :: acc) (fun a ha => h a (List.mem_cons_of_mem c ha))]
    congr 1
    rw [List.reverse_cons, List.append_assoc]
    rfl

theorem joinSp_words_roundtrip (ws : List Str)
    (h : ∀ w ∈ ws, w ≠ [] ∧ ∀ c ∈ w, isWs c = false) :
    pyWords (joinSp ws) = ws := by
  induction ws with
  | nil => rfl
  | cons w tail ih =>
    cases tail with
    | nil =>
      have hw := h w (List.mem_singleton.mpr rfl)
      have hj : joinSp [w] = w := rfl
      rw [hj, pyWords]
      have happ : wordsAux w [] = wordsAux (w ++ []) [] := by
        rw [List.append_nil]
      rw [happ, wordsAux_consume w [] [] hw.2, wordsAux, List.append_nil,
        if_neg (by simp [hw.1]), List.reverse_reverse]
    | cons w' ws' =>
      have hw := h w (List.mem_cons_self _ _)
      have hj : joinSp (w :: w' :: ws') = w ++ ' ' :: joinSp (w' :: ws') := rfl
      rw [pyWords, hj, wordsAux_consume w _ [] hw.2, List.append_nil, wordsAux,
        if_pos (by decide), if_neg (by simp [hw.1]), List.reverse_reverse]
      have ihh := ih (fun v hv => h v (List.mem_cons_of_mem w hv))
      rw [pyWords] at ihh
      rw [ihh]

theorem mem_of_head? {α : Type} (l : List α) (c : α) (h : l.head? = some c) :
    c ∈ l := by
  cases l with
  | nil => cases h
  | cons a t =>
    rw [List.head?_cons, Option.some_inj] at h
    rw [← h]
    exact List.mem_cons_self a t

theorem joinSp_head_nonWs (ws : List Str)
    (h : ∀ w ∈ ws, w ≠ [] ∧ ∀ c ∈ w, isWs c = false) (c : Char)
    (hc : (joinSp ws).head? = some c) : isWs c = false := by
  cases ws with
  | nil => cases hc
  | cons w tail =>
    have hw := h w (List.mem_cons_self _ _)
    rcases List.exists_cons_of_ne_nil hw.1 with ⟨a, w2, rfl⟩
    cases tail with
    | nil =>
      have hj : joinSp [a :: w2] = a :: w2 := rfl
      rw [hj, List.head?_cons, Option.some_inj] at hc
      rw [← hc]
      exact hw.2 a (List.mem_cons_self a w2)
    | cons w' ws' =>
      have hj : joinSp ((a :: w2) :: w' :: ws') =
          a :: (w2 ++ ' ' :: joinSp (w' :: ws')) := rfl
      rw [hj, List.head?_cons, Option.some_inj] at hc
      rw [← hc]
      exact hw.2 a (List.mem_cons_self a w2)

theorem joinSp_ne_nil (ws : List Str) (hne : ws ≠ [])
    (h : ∀ w ∈ ws, w ≠ []) : joinSp ws ≠ [] := by
  cases ws with
  | nil => exact absurd rfl hne
  | cons w tail =>
    have hw := h w (List.mem_cons_self _ _)
    cases tail with
    | nil => exact hw
    | cons w' ws' =>
      have hj : joinSp (w :: w' :: ws') = w ++ ' ' :: joinSp (w' :: ws') := rfl
      rw [hj]
      simp

theorem joinSp_getLast_nonWs (ws : List Str)
    (h : ∀ w ∈ ws, w ≠ [] ∧ ∀ c ∈ w, isWs c = false) (c : Char)
    (hc : (joinSp ws).getLast? = some c) : isWs c = false := by
  induction ws with
  | nil => cases hc
  | cons w tail ih =>
    cases tail with
    | nil =>
      have hw := h w (List.mem_singleton.mpr rfl)
      have hj : joinSp [w] = w := rfl
      rw [hj] at hc
      have hrev : w.reverse.head? = some c := by
        rw [List.head?_reverse]
        exact hc
      exact hw.2 c (List.mem_reverse.mp (mem_of_head? _ c hrev))
    | cons w' ws' =>
      have hj : joinSp (w :: w' :: ws') = w ++ ' ' :: joinSp (w' :: ws') := rfl
      rw [hj, List.getLast?_append] at hc
      have hJne : joinSp (w' :: ws') ≠ [] :=
        joinSp_ne_nil (w' :: ws') (by simp)
          (fun v hv => (h v (List.mem_cons_of_mem w hv)).1)
      rcases hJ : (joinSp (w' :: ws')).getLast? with _ | d
      · rw [List.getLast?_eq_none_iff] at hJ
        exact absurd hJ hJne
      · have hgl : (' ' :: joinSp (w' :: ws')).getLast? = some d := by
          have hsplit : (' ' :: joinSp (w' :: ws')) = [' '] ++ joinSp (w' :: ws') := rfl
          rw [hsplit, List.getLast?_append, hJ]
          rfl
        rw [hgl] at hc
        simp only [Option.or_some] at hc
        rw [Option.some_inj] at hc
        exact ih (fun v hv => h v (List.mem_cons_of_mem w hv)) (by rw [hJ, hc])

theorem pyStrip_eq_self (l : Str)
    (h1 : ∀ c, l.head? = some c → isWs c = false)
    (h2 : ∀ c, l.getLast? = some c → isWs c = false) : pyStrip l = l := by
  cases l with
  | nil => rfl
  | cons a t =>
    have ha : isWs a = false := h1 a rfl
    rw [pyStrip, List.dropWhile_cons, if_neg (by rw [ha]; simp)]
    rcases hr : (a :: t).reverse with _ | ⟨b, rt⟩
    · rw [List.reverse_eq_nil_iff] at hr
      cases hr
    · have hb : (a :: t).getLast? = some b := by
        rw [← List.head?_reverse, hr]
        rfl
      have hbw : isWs b = false := h2 b hb
      have hd : List.dropWhile isWs (b :: rt) = b :: rt := by
        rw [List.dropWhile_cons, if_neg (by rw [hbw]; simp)]
      rw [hd, ← hr, List.reverse_reverse]

theorem pyStrip_collapseWs (x : Str) : pyStrip (collapseWs x) = collapseWs x := by
  rcases hx : pyWords x with _ | ⟨w, ws⟩
  · rw [collapseWs, hx]
    rfl
  · refine pyStrip_eq_self _ ?_ ?_
    · intro c hc
      refine joinSp_head_nonWs (pyWords x) (pyWords_wf x) c ?_
      rw [collapseWs] at hc
      exact hc
    · intro c hc
      refine joinSp_getLast_nonWs (pyWords x) (pyWords_wf x) c ?_
      rw [collapseWs] at hc
      exact hc

theorem collapseWs_idem (x : Str) : collapseWs (collapseWs x) = collapseWs x := by
  have hroundtrip := joinSp_words_roundtrip (pyWords x) (pyWords_wf x)
  calc collapseWs (collapseWs x)
      = joinSp (pyWords (joinSp (pyWords x))) := rfl
    _ = joinSp (pyWords x) := by rw [hroundtrip]
    _ = collapseWs x := rfl

/-- Counterexample to C8 as stated: the normalizer is not idempotent — on
`foo inc co` one pass strips only the trailing ` co` (the loop never
revisits earlier suffixes), a second pass then strips ` inc`. -/
theorem normalize_company_name_not_idem :
    normalize_company_name (("foo inc co").data) = ("foo inc").data ∧
    normalize_company_name (normalize_company_name (("foo inc co").data)) =
      ("foo").data ∧
    ("foo").data ≠ ("foo inc").data := by
  exact ⟨by decide, by decide, by decide⟩

/-- Amended C8: the company-name normalizer is idempotent on every input
whose normalized form does not end with any of the listed suffixes (a
second pass can only act through the suffix loop: the output is already
lowercased, stripped, punctuation-free and whitespace-collapsed). -/
theorem normalize_company_name_idem_amended (s : Str)
    (h : ∀ suf ∈ pySuffixes, suf.isSuffixOf (normalize_company_name s) = false) :
    normalize_company_name (normalize_company_name s) =
      normalize_company_name s := by
  by_cases hs : s = []
  · rw [hs]
    rfl
  · by_cases hn : normalize_company_name s = []
    · rw [hn]
      rfl
    · have hn_eq : normalize_company_name s =
          collapseWs (removePunct (stripSuffixes (pyStrip (s.map lowerChar)))) := by
        rw [normalize_company_name, if_neg hs]
      have hgood := goodChar_normalize s
      have h1 : (normalize_company_name s).map lowerChar =
          normalize_company_name s :=
        map_eq_self_of_fixed lowerChar _ (fun c hc => (hgood c hc).1)
      have h2 : pyStrip (normalize_company_name s) = normalize_company_name s := by
        rw [hn_eq]
        exact pyStrip_collapseWs _
      have h3 : stripSuffixes (normalize_company_name s) =
          normalize_company_name s :=
        stripSuffixes_eq_self _ h
      have h4 : removePunct (normalize_company_name s) =
          normalize_company_name s :=
        removePunct_eq_self _ hgood
      have h5 : collapseWs (normalize_company_name s) =
          normalize_company_name s := by
        rw [hn_eq]
        exact collapseWs_idem _
      rw [normalize_company_name, if_neg hn, h1, h2, h3, h4, h5]

/-- Witness for the amended C8: `Acme Corp` normalizes to `acme`, which ends
in no listed suffix, and a second pass leaves it unchanged. -/
theorem normalize_company_name_idem_amended_witness :
    (∀ suf ∈ pySuffixes,
      suf.isSuffixOf (normalize_company_name (("Acme Corp").data)) = false) ∧
    normalize_company_name (normalize_company_name (("Acme Corp").data)) =
      normalize_company_name (("Acme Corp").data) :=
  ⟨by decide, normalize_company_name_idem_amended (("Acme Corp").data) (by decide)⟩
